import Mathlib

/-!
# Static-file interceptor of da4qi4 (`src/intercepters/static_file.cpp`)

A shallow embedding of `da4qi4::Intercepter::StaticFile`: the configuration
operations, the request-phase hook `onRequest` and the response-phase hook
`onResponse`, followed by theorems about them.

Conventions of the embedding.

* A `std::string` is a Lean `String`, one `Char` per C++ `char`, so that
  `size()` is `String.length`.  File contents and chunk bodies are lists of bytes.
* The context `ctx` is passed explicitly.  Every call the interceptor makes on
  it (`Pass`, `Stop`, `SaveData`, the `Render...` helpers, the chunked-response
  helpers, the response-header setters) is appended to `Context.trace`, in
  call order; `SaveData` and `RemoveData` also update `Context.data`.
* The collaborators that live outside `static_file.cpp` and that it only
  calls (the `fs::path` operations, `fs::exists`, `std::ifstream`, the MIME
  table) are the fields of `Externals`; the theorems hold for every choice of
  them.  `posix` is one concrete choice, used for worked inputs.
* The type of the entry container is declared in the header, so the container
  is the parameter `EntryContainer` of `AddEntry`; `orderedContainer` is the
  ordered associative container of the standard library (`std::map`,
  `std::multimap`) over a key comparison.
-/

namespace da4qi4
namespace Intercepter

/-- A byte of a file or of a chunk body. -/
abbrev Byte := UInt8

/-- `StaticFile::PathResolve`: how a configured URL prefix or directory root is read. -/
inductive PathResolve where
  | is_relative
  | is_absolute
deriving DecidableEq, Repr

/-- Modelled from the spec: `HandlerMethod` is declared in a header that is not
part of the sources at hand.  `onRequest` only compares the request method with
`HandlerMethod::GET`, so every other method is `other` with its numeric code. -/
inductive HandlerMethod where
  | GET
  | other (code : Nat)
deriving DecidableEq, Repr

/-- The JSON value kept under `data_name`.  `onRequest` writes an object with the
two keys `"found"` (a boolean) and `"file"` (a string); `onResponse` looks each
key up and tolerates its absence.  `none` is an absent key, and the value with
both keys absent stands for the null / empty JSON value.  A value of another
JSON type under one of the two keys, on which the conversion in `onResponse`
throws, is not represented. -/
structure Json where
  found : Option Bool
  file : Option String
deriving DecidableEq, Repr

/-- The null JSON value, which `LoadData` yields for a key that holds nothing. -/
def Json.null : Json := { found := none, file := none }

/-- The test `status_data.empty()`. -/
def Json.empty (j : Json) : Bool := j.found.isNone && j.file.isNone

/-- A call made on the context, as recorded in `Context.trace`. -/
inductive Effect where
  | Pass
  | Stop
  | SaveData (name : String) (data : Json)
  | RemoveData (name : String)
  | RenderBadRequest
  | RenderNofound
  | RenderInternalServerError
  | SetContentType (content_type : String)
  | CacheControlMaxAge (seconds : Int)
  | StartChunkedResponse
  | ContinueChunkedResponse (body : List Byte)
  | StopChunkedResponse
deriving DecidableEq, Repr

/-- Modelled from the spec: the request context (`Context`, section 6 of the
spec).  The request and application fields are read-only; `data` is the
per-request key-value store; `trace` is the list of calls made so far. -/
structure Context where
  method : HandlerMethod
  url : String
  urlRoot : String
  staticRootPath : String
  data : List (String × Json)
  trace : List Effect
deriving DecidableEq, Repr

namespace Context

/-- Append one call to the trace. -/
def emit (ctx : Context) (e : Effect) : Context :=
  { ctx with trace := ctx.trace ++ [e] }

/-- The call `ctx->Pass()`. -/
def Pass (ctx : Context) : Context := ctx.emit Effect.Pass

/-- The call `ctx->Stop()`. -/
def Stop (ctx : Context) : Context := ctx.emit Effect.Stop

/-- The call `ctx->RenderBadRequest()`. -/
def RenderBadRequest (ctx : Context) : Context := ctx.emit Effect.RenderBadRequest

/-- The call `ctx->RenderNofound()`. -/
def RenderNofound (ctx : Context) : Context := ctx.emit Effect.RenderNofound

/-- The call `ctx->RenderInternalServerError()`. -/
def RenderInternalServerError (ctx : Context) : Context :=
  ctx.emit Effect.RenderInternalServerError

/-- The call `ctx->Res().SetContentType(content_type)`. -/
def SetContentType (ctx : Context) (content_type : String) : Context :=
  ctx.emit (Effect.SetContentType content_type)

/-- The call `ctx->Res().CacheControlMaxAge(seconds)`. -/
def CacheControlMaxAge (ctx : Context) (seconds : Int) : Context :=
  ctx.emit (Effect.CacheControlMaxAge seconds)

/-- The call `ctx->StartChunkedResponse()`. -/
def StartChunkedResponse (ctx : Context) : Context := ctx.emit Effect.StartChunkedResponse

/-- The call `ctx->ContinueChunkedResponse(body)`. -/
def ContinueChunkedResponse (ctx : Context) (body : List Byte) : Context :=
  ctx.emit (Effect.ContinueChunkedResponse body)

/-- The call `ctx->StopChunkedResponse()`. -/
def StopChunkedResponse (ctx : Context) : Context := ctx.emit Effect.StopChunkedResponse

/-- The call `ctx->SaveData(name, data)`: the value replaces what the key held. -/
def SaveData (ctx : Context) (name : String) (data : Json) : Context :=
  { ctx with
    data := (name, data) :: ctx.data.filter (fun kv => kv.1 != name)
    trace := ctx.trace ++ [Effect.SaveData name data] }

/-- The call `ctx->LoadData(name)`: the stored value, or null when there is none. -/
def LoadData (ctx : Context) (name : String) : Json :=
  match ctx.data.lookup name with
  | some j => j
  | none => Json.null

/-- The call `ctx->RemoveData(name)`. -/
def RemoveData (ctx : Context) (name : String) : Context :=
  { ctx with
    data := ctx.data.filter (fun kv => kv.1 != name)
    trace := ctx.trace ++ [Effect.RemoveData name] }

end Context

/-- The collaborators `static_file.cpp` calls but does not define.

* `pathAppend a b` is the string of `fs::path(a) / b` (and of `a /= b`);
* `filename p` and `extension p` are the strings of `fs::path(p).filename()` and
  `fs::path(p).extension()`;
* `fsExists p` is `fs::exists(p)`, with `none` when the call throws;
* `ifstream p` is the result of opening `p` for binary reading: `none` when the
  stream is not good after construction, otherwise the list of byte blocks that
  the successive calls `ifs.read(rdbuf, 2048)` deliver, up to and including the
  call after which the stream is no longer good;
* `GetMIMEType e` is `Utilities::GetMIMEType(e)`. -/
structure Externals where
  pathAppend : String → String → String
  filename : String → String
  extension : String → String
  fsExists : String → Option Bool
  ifstream : String → Option (List (List Byte))
  GetMIMEType : String → String

/-- The member function `fs::path::has_filename()`: the filename is not empty. -/
def Externals.has_filename (ext : Externals) (p : String) : Bool :=
  ext.filename p != ""

/-- The interceptor object.  `root_entries` lists the configured
(url prefix, directory root) pairs in the order the request-phase loop visits
them; `default_filenames` is the vector of index file names. -/
structure StaticFile where
  cache_max_age : Int
  url_resolve_type : PathResolve
  dir_resolve_type : PathResolve
  root_entries : List (String × String)
  default_filenames : List String
deriving DecidableEq, Repr

/-- The constant `StaticFile::data_name`. -/
def StaticFile.data_name : String := "static-file"

/-- The container of the (url prefix, directory root) pairs.  Its type is declared
in `static_file.hpp`, which is not part of the sources at hand, so it is a
parameter: `insert entries e` is the content of the container, in the order a
range-`for` visits it, after the call `insert(e)` on a container whose content,
in that order, was `entries`. -/
structure EntryContainer where
  insert : List (String × String) → String × String → List (String × String)

/-- The position an ordered associative container gives a new element: before the
first element whose key is greater (`less key x.first`), so after the elements
with an equivalent key. -/
def upperInsert (less : String → String → Bool) (e : String × String) :
    List (String × String) → List (String × String)
  | [] => [e]
  | x :: xs => if less e.1 x.1 then e :: x :: xs else x :: upperInsert less e xs

/-- An element with a key equivalent to `key` (neither is less than the other) is
in the container. -/
def hasKey (less : String → String → Bool) (key : String)
    (entries : List (String × String)) : Bool :=
  entries.any (fun x => !less key x.1 && !less x.1 key)

/-- The one-argument `insert(value)` of the ordered associative containers of the
standard library, on the content in iteration (key) order: a container with
unique keys (`std::map`) inserts nothing when an equivalent key is present;
otherwise the element goes to its place in key order (`std::multimap` puts it
after the elements with an equivalent key). -/
def insertByKey (less : String → String → Bool) (unique_keys : Bool)
    (entries : List (String × String)) (e : String × String) : List (String × String) :=
  if unique_keys && hasKey less e.1 entries then entries else upperInsert less e entries

/-- An ordered associative container with the key comparison `less`: `std::map`
when `unique_keys` is true, `std::multimap` otherwise. -/
def orderedContainer (less : String → String → Bool) (unique_keys : Bool) : EntryContainer where
  insert := insertByKey less unique_keys

/-- The comparison `operator<` of `std::string` on the chars of two strings: the
first char that differs decides, and a proper beginning is less. -/
def charsLess : List Char → List Char → Bool
  | _, [] => false
  | [], _ :: _ => true
  | a :: as, b :: bs =>
    if a.toNat < b.toNat then true
    else if b.toNat < a.toNat then false
    else charsLess as bs

/-- The key comparison `std::less<std::string>`. -/
def stringLess (a b : String) : Bool := charsLess a.data b.data

/-- The key comparison `std::greater<std::string>`. -/
def stringGreater (a b : String) : Bool := charsLess b.data a.data

/-- The entries are in key order: no entry has a key less than the key of an entry
before it. -/
def keySorted (less : String → String → Bool) (entries : List (String × String)) : Prop :=
  entries.Pairwise (fun a b => less b.1 a.1 = false)

/-- `StaticFile::AddEntry` (line 19): the one-argument `insert` of the entry
container with the pair made of the two arguments. -/
def StaticFile.AddEntry (self : StaticFile) (c : EntryContainer)
    (url_root dir_root : String) : StaticFile :=
  { self with root_entries := c.insert self.root_entries (url_root, dir_root) }

/-- `StaticFile::AddDefaultFileName`: return at once when the scan of
`default_filenames` meets the name, `push_back` otherwise. -/
def StaticFile.AddDefaultFileName (self : StaticFile) (index_filename : String) : StaticFile :=
  if self.default_filenames.any (fun fn => fn == index_filename) then self
  else { self with default_filenames := self.default_filenames ++ [index_filename] }

/-- `StaticFile::AddDefaultFileNames`: call `AddDefaultFileName` on each element,
first to last. -/
def StaticFile.AddDefaultFileNames (self : StaticFile) (index_filenames : List String) :
    StaticFile :=
  index_filenames.foldl StaticFile.AddDefaultFileName self

/-- Modelled from the spec: `Utilities::iStartsWith(m, s)` (its header is not part
of the sources at hand): `m` starts with `s` when letter case is ignored. -/
def iStartsWith (m s : String) : Bool :=
  decide (s.length ≤ m.length) &&
    ((m.data.take s.length).map Char.toLower == s.data.map Char.toLower)

/-- The call `s.substr(pos)` for `pos ≤ s.size()`: `s` without its first `pos` chars. -/
def substr (s : String) (pos : Nat) : String := ⟨s.data.drop pos⟩

namespace StaticFile

/-- The local `url_starts` of `onRequest` for one entry (lines 67-69). -/
def url_starts (self : StaticFile) (ctx : Context) (entry : String × String) : String :=
  if self.url_resolve_type = PathResolve.is_relative then ctx.urlRoot ++ entry.1
  else entry.1

/-- The local `dir_root` of `onRequest` for one entry (lines 73-75). -/
def dir_root (self : StaticFile) (ctx : Context) (entry : String × String) : String :=
  if self.dir_resolve_type = PathResolve.is_relative then ctx.staticRootPath ++ entry.2
  else entry.2

/-- The value `dst_file.string()` that lines 77-78 compute for a matching entry. -/
def dst_file (self : StaticFile) (ext : Externals) (ctx : Context)
    (entry : String × String) : String :=
  ext.pathAppend (self.dir_root ctx entry) (substr ctx.url (self.url_starts ctx entry).length)

/-- The loop of `onRequest` (lines 65-82) over the entries still to visit:
`some f` when it leaves through `break` with `dst_file.string() = f`, `none`
when it runs to the end with `entry_found` still false. -/
def scanEntries (self : StaticFile) (ext : Externals) (ctx : Context) :
    List (String × String) → Option String
  | [] => none
  | entry :: rest =>
    if iStartsWith ctx.url (self.url_starts ctx entry) then
      some (self.dst_file ext ctx entry)
    else scanEntries self ext ctx rest

/-- `StaticFile::onRequest`. -/
def onRequest (self : StaticFile) (ext : Externals) (ctx : Context) : Context :=
  if ctx.method ≠ HandlerMethod.GET then ctx.Pass
  else
    match scanEntries self ext ctx self.root_entries with
    | some f => (ctx.SaveData data_name { found := some true, file := some f }).Stop
    | none => ctx.Pass

/-- The constant `max_byte_read_one_time`. -/
def max_byte_read_one_time : Nat := 1024 * 2

/-- The constant `max_byte_one_chunked_body`. -/
def max_byte_one_chunked_body : Nat := 1024 * 128

/-- The loop over the default file names (lines 141-151): `none` when
`fs::exists` throws, `some (some f)` when it leaves through `break` with the
new `dst_file = f`, `some none` when no name exists. -/
def scanDefaults (ext : Externals) (dst : String) : List String → Option (Option String)
  | [] => some none
  | fn :: rest =>
    let with_default_file := ext.pathAppend dst fn
    match ext.fsExists with_default_file with
    | none => none
    | some true => some (some with_default_file)
    | some false => scanDefaults ext dst rest

/-- The outcome of the `try` block of `onResponse` (lines 130-168). -/
inductive Resolution where
  | fault
  | notFound
  | resolved (dst_file : String)
deriving DecidableEq, Repr

/-- The `try` block of `onResponse` (lines 130-168) on the stored path `dst`:
`fault` when an exception reaches the `catch`, `notFound` when `found` stays
false, `resolved f` when control leaves the block with `dst_file = f`. -/
def resolve (self : StaticFile) (ext : Externals) (dst : String) : Resolution :=
  let named := ext.has_filename dst && ext.filename dst != "."
  let file_exists : Option Bool := if named then ext.fsExists dst else some false
  match file_exists with
  | none => Resolution.fault
  | some true => Resolution.resolved dst
  | some false =>
    if !ext.has_filename dst || ext.filename dst == "." then
      match scanDefaults ext dst self.default_filenames with
      | none => Resolution.fault
      | some (some f) => Resolution.resolved f
      | some none => Resolution.notFound
    else Resolution.notFound

/-- The loop `while (ifs)` of `onResponse` (lines 198-213) over the blocks the
remaining reads deliver, from the context and the `a_chunk_body` at hand; the
result is the context and the `a_chunk_body` when the loop ends. -/
def readLoop : List (List Byte) → Context → List Byte → Context × List Byte
  | [], ctx, a_chunk_body => (ctx, a_chunk_body)
  | rdbuf :: reads, ctx, a_chunk_body =>
    let body := if rdbuf.length > 0 then a_chunk_body ++ rdbuf else a_chunk_body
    if body.length > max_byte_one_chunked_body then
      readLoop reads (ctx.ContinueChunkedResponse body) []
    else readLoop reads ctx body

/-- The part of `onResponse` after the file has been opened (lines 181-223). -/
def sendFile (self : StaticFile) (ext : Externals) (ctx : Context) (dst : String)
    (reads : List (List Byte)) : Context :=
  let content_type := ext.GetMIMEType (ext.extension dst)
  let ctx1 := if content_type != "" then ctx.SetContentType content_type else ctx
  let ctx2 := (ctx1.CacheControlMaxAge self.cache_max_age).StartChunkedResponse
  let r := readLoop reads ctx2 []
  let ctx3 := if r.2 != [] then r.1.ContinueChunkedResponse r.2 else r.1
  ((ctx3.RemoveData data_name).StopChunkedResponse).Pass

/-- `StaticFile::onResponse`. -/
def onResponse (self : StaticFile) (ext : Externals) (ctx : Context) : Context :=
  let status_data := ctx.LoadData data_name
  if status_data.empty then ctx.Pass
  else
    let entry_found := match status_data.found with
      | none => false
      | some b => b
    if !entry_found then ctx.Pass
    else
      let dst_file_name := match status_data.file with
        | none => ""
        | some s => s
      if dst_file_name == "" then ctx.RenderBadRequest
      else
        match resolve self ext dst_file_name with
        | Resolution.fault => ctx.RenderInternalServerError.Pass
        | Resolution.notFound => ctx.RenderNofound.Pass
        | Resolution.resolved dst =>
          match ext.ifstream dst with
          | none => ctx.RenderInternalServerError.Pass
          | some reads => sendFile self ext ctx dst reads

/-- The calls `onRequest` makes on the context: the trace it leaves without the
trace it found. -/
def requestCalls (self : StaticFile) (ext : Externals) (ctx : Context) : List Effect :=
  (onRequest self ext ctx).trace.drop ctx.trace.length

/-- The calls `onResponse` makes on the context: the trace it leaves without the
trace it found. -/
def responseCalls (self : StaticFile) (ext : Externals) (ctx : Context) : List Effect :=
  (onResponse self ext ctx).trace.drop ctx.trace.length

/-- A sequence of `AddEntry` calls, first to last, on an interceptor. -/
def AddEntries (self : StaticFile) (c : EntryContainer) (calls : List (String × String)) :
    StaticFile :=
  calls.foldl (fun s e => s.AddEntry c e.1 e.2) self

end StaticFile

/-- The bodies handed to `ContinueChunkedResponse` in a list of calls, in call order. -/
def chunkBodies : List Effect → List (List Byte)
  | [] => []
  | Effect.ContinueChunkedResponse body :: rest => body :: chunkBodies rest
  | _ :: rest => chunkBodies rest

/-- The bodies that `readLoop` flushes inside the loop, as a function of the
blocks read and of the `a_chunk_body` at hand. -/
def flushed : List (List Byte) → List Byte → List (List Byte)
  | [], _ => []
  | rdbuf :: reads, a_chunk_body =>
    if (a_chunk_body ++ rdbuf).length > StaticFile.max_byte_one_chunked_body then
      (a_chunk_body ++ rdbuf) :: flushed reads []
    else flushed reads (a_chunk_body ++ rdbuf)

/-- The `a_chunk_body` that `readLoop` leaves when the loop ends. -/
def pending : List (List Byte) → List Byte → List Byte
  | [], a_chunk_body => a_chunk_body
  | rdbuf :: reads, a_chunk_body =>
    if (a_chunk_body ++ rdbuf).length > StaticFile.max_byte_one_chunked_body then
      pending reads []
    else pending reads (a_chunk_body ++ rdbuf)

/-- The bodies `onResponse` hands to `ContinueChunkedResponse` for the blocks read:
those flushed inside the loop, then what is left after it unless that is empty. -/
def segments (reads : List (List Byte)) : List (List Byte) :=
  flushed reads [] ++ (if pending reads [] != [] then [pending reads []] else [])

/-- The calls of `onResponse` once the file `dst` is open, for the blocks read. -/
def successCalls (self : StaticFile) (ext : Externals) (dst : String)
    (reads : List (List Byte)) : List Effect :=
  (if ext.GetMIMEType (ext.extension dst) != "" then
      [Effect.SetContentType (ext.GetMIMEType (ext.extension dst))] else []) ++
    [Effect.CacheControlMaxAge self.cache_max_age, Effect.StartChunkedResponse] ++
    (segments reads).map Effect.ContinueChunkedResponse ++
    [Effect.RemoveData StaticFile.data_name, Effect.StopChunkedResponse, Effect.Pass]

/-- What `std::ifstream::read(rdbuf, 2048)` delivers, call after call, on a
regular file that is read without an I/O error, from the bytes not yet read:
a call delivers 2048 bytes and leaves the stream good while at least 2048 bytes
remain; otherwise it delivers the bytes that remain and sets `eofbit` and
`failbit`, which ends the loop.  The first argument bounds the number of calls. -/
def ifstreamReadsAux : Nat → List Byte → List (List Byte)
  | 0, _ => []
  | fuel + 1, rest =>
    if StaticFile.max_byte_read_one_time ≤ rest.length then
      rest.take StaticFile.max_byte_read_one_time ::
        ifstreamReadsAux fuel (rest.drop StaticFile.max_byte_read_one_time)
    else [rest]

/-- The blocks delivered by the reads of a regular file with the given content;
`content.length + 1` calls are always enough (`ifstreamReads_join`). -/
def ifstreamReads (content : List Byte) : List (List Byte) :=
  ifstreamReadsAux (content.length + 1) content

/-- A file content of 131073 bytes, one more than 128 KiB. -/
def content131073 : List Byte := List.replicate 131073 0

/-- A file content of 133121 bytes, one more than 128 KiB + 2 KiB. -/
def content133121 : List Byte := List.replicate 133121 0

/-- The string of `fs::path(a) / b` on POSIX (Boost.Filesystem 3): `b` is appended,
after a `/` when `a` is not empty and does not end with one and `b` does not
begin with one; an empty `b` leaves `a` as it is. -/
def posixPathAppend (a b : String) : String :=
  if b == "" then a
  else if b.data.head? == some '/' then a ++ b
  else if a == "" || a.data.getLast? == some '/' then a ++ b
  else a ++ "/" ++ b

/-- The string of `fs::path(p).filename()` on POSIX (Boost.Filesystem 3): empty for
the empty path, `.` for a path that ends with a separator (the root `/` is its
own filename), otherwise what follows the last separator. -/
def posixFilename (p : String) : String :=
  if p == "" then ""
  else if p.data.getLast? == some '/' then
    (if p.data.all (fun c => c == '/') then "/" else ".")
  else ⟨(p.data.reverse.takeWhile (fun c => c != '/')).reverse⟩

/-- The string of `fs::path(p).extension()` on POSIX (Boost.Filesystem 3): empty for
the filenames `.` and `..` and for a filename without a dot, otherwise the
filename from its last dot on. -/
def posixExtension (p : String) : String :=
  let name := posixFilename p
  if name == "." || name == ".." then ""
  else if name.data.contains '.' then
    ⟨'.' :: (name.data.reverse.takeWhile (fun c => c != '.')).reverse⟩
  else ""

/-- A small MIME table standing for `Utilities::GetMIMEType`. -/
def posixMIMEType (extension : String) : String :=
  if extension == ".html" then "text/html"
  else if extension == ".css" then "text/css"
  else if extension == ".txt" then "text/plain"
  else ""

/-- The collaborators over a POSIX filesystem that holds exactly the given
regular files, all of them readable: `fs::exists` never throws, and it holds of
the listed paths only (the directories above them are not represented). -/
def posix (files : List (String × List Byte)) : Externals where
  pathAppend := posixPathAppend
  filename := posixFilename
  extension := posixExtension
  fsExists := fun p => some (files.lookup p).isSome
  ifstream := fun p => (files.lookup p).map ifstreamReads
  GetMIMEType := posixMIMEType

/-- A call of one of the three configuration operations, with its arguments. -/
inductive ConfigCall where
  | AddEntry (url_root dir_root : String)
  | AddDefaultFileName (index_filename : String)
  | AddDefaultFileNames (index_filenames : List String)
deriving DecidableEq, Repr

/-- The interceptor after one configuration call, `c` being the entry container. -/
def StaticFile.configCall (c : EntryContainer) (self : StaticFile) : ConfigCall → StaticFile
  | ConfigCall.AddEntry url_root dir_root => self.AddEntry c url_root dir_root
  | ConfigCall.AddDefaultFileName index_filename => self.AddDefaultFileName index_filename
  | ConfigCall.AddDefaultFileNames index_filenames =>
    self.AddDefaultFileNames index_filenames

/-- The interceptor after a sequence of configuration calls, first to last, `c`
being the entry container. -/
def StaticFile.configure (c : EntryContainer) (self : StaticFile) (calls : List ConfigCall) :
    StaticFile :=
  calls.foldl (StaticFile.configCall c) self

/-- The names of a list, each once, in the order of their first occurrence. -/
def firstOccurrences : List String → List String
  | [] => []
  | n :: ns => n :: (firstOccurrences ns).filter (fun m => m != n)

/-- What the spec says `AddDefaultFileNames` puts after the old list: the names of
the argument that are not in the old list, each once, in the order of their first
occurrence in the argument. -/
def addedNamesSpec (old index_filenames : List String) : List String :=
  firstOccurrences (index_filenames.filter (fun n => !old.contains n))

end Intercepter
end da4qi4

namespace da4qi4.Intercepter

open StaticFile

/-! ## Configuration and the request phase -/

/-- `AddEntry` leaves the two resolution modes as they are. -/
theorem AddEntries_modes (self : StaticFile) (c : EntryContainer)
    (calls : List (String × String)) :
    (self.AddEntries c calls).url_resolve_type = self.url_resolve_type ∧
    (self.AddEntries c calls).dir_resolve_type = self.dir_resolve_type := by
  induction calls generalizing self with
  | nil => exact ⟨rfl, rfl⟩
  | cons e es ih =>
    have h := ih (self.AddEntry c e.1 e.2)
    simpa [AddEntries, StaticFile.AddEntry] using h

/-- The elements after an insertion by key: the new one and the old ones. -/
theorem mem_upperInsert (less : String → String → Bool) (e y : String × String)
    (l : List (String × String)) : y ∈ upperInsert less e l ↔ y = e ∨ y ∈ l := by
  induction l with
  | nil => simp [upperInsert]
  | cons x xs ih =>
    simp only [upperInsert]
    split_ifs
    · simp
    · simp only [List.mem_cons, ih]
      tauto

/-- An insertion by key is an insertion before the first element with a greater key. -/
theorem upperInsert_eq (less : String → String → Bool) (e : String × String)
    (l : List (String × String)) :
    upperInsert less e l =
      l.takeWhile (fun x => !less e.1 x.1) ++ e :: l.dropWhile (fun x => !less e.1 x.1) := by
  induction l with
  | nil => simp [upperInsert]
  | cons x xs ih =>
    simp only [upperInsert]
    by_cases hx : less e.1 x.1 = true
    · simp [hx, List.takeWhile_cons, List.dropWhile_cons]
    · have hx2 : less e.1 x.1 = false := by simpa using hx
      simp [hx2, List.takeWhile_cons, List.dropWhile_cons, ih]

/-- An insertion by key adds one element. -/
theorem length_upperInsert (less : String → String → Bool) (e : String × String)
    (l : List (String × String)) : (upperInsert less e l).length = l.length + 1 := by
  induction l with
  | nil => simp [upperInsert]
  | cons x xs ih =>
    simp only [upperInsert]
    split_ifs
    · simp
    · simp [ih]

/-- An insertion by key keeps the old elements in their order. -/
theorem upperInsert_sublist (less : String → String → Bool) (e : String × String)
    (l : List (String × String)) : List.Sublist l (upperInsert less e l) := by
  induction l with
  | nil => simp [upperInsert]
  | cons x xs ih =>
    simp only [upperInsert]
    split_ifs
    · exact List.sublist_cons_self e (x :: xs)
    · exact ih.cons₂ x

/-- An insertion by key keeps the key order, for a comparison that is asymmetric
and transitive. -/
theorem upperInsert_keySorted (less : String → String → Bool)
    (hasymm : ∀ a b, less a b = true → less b a = false)
    (htrans : ∀ a b d, less a b = true → less b d = true → less a d = true)
    (e : String × String) (l : List (String × String)) (hl : keySorted less l) :
    keySorted less (upperInsert less e l) := by
  induction l with
  | nil => simp [upperInsert, keySorted]
  | cons x xs ih =>
    have hx : ∀ y ∈ xs, less y.1 x.1 = false := (List.pairwise_cons.mp hl).1
    have hxs : keySorted less xs := (List.pairwise_cons.mp hl).2
    simp only [upperInsert]
    by_cases hlt : less e.1 x.1 = true
    · simp only [hlt, if_true]
      refine List.pairwise_cons.mpr ⟨?_, hl⟩
      intro y hy
      rcases List.mem_cons.mp hy with rfl | hy
      · exact hasymm _ _ hlt
      · cases hye : less y.1 e.1 with
        | false => rfl
        | true =>
          have := htrans _ _ _ hye hlt
          rw [hx y hy] at this
          exact absurd this (by simp)
    · have hlt2 : less e.1 x.1 = false := by simpa using hlt
      simp only [hlt2, Bool.false_eq_true, if_false]
      refine List.pairwise_cons.mpr ⟨?_, ih hxs⟩
      intro y hy
      rcases (mem_upperInsert less e y xs).mp hy with rfl | hy
      · exact hlt2
      · exact hx y hy

/-- The `insert` of an ordered container keeps the key order. -/
theorem insertByKey_keySorted (less : String → String → Bool) (unique_keys : Bool)
    (hasymm : ∀ a b, less a b = true → less b a = false)
    (htrans : ∀ a b d, less a b = true → less b d = true → less a d = true)
    (e : String × String) (l : List (String × String)) (hl : keySorted less l) :
    keySorted less (insertByKey less unique_keys l e) := by
  simp only [insertByKey]
  split_ifs
  · exact hl
  · exact upperInsert_keySorted less hasymm htrans e l hl

/-- A sequence of `AddEntry` calls into an ordered container keeps the key order. -/
theorem AddEntries_keySorted (less : String → String → Bool) (unique_keys : Bool)
    (hasymm : ∀ a b, less a b = true → less b a = false)
    (htrans : ∀ a b d, less a b = true → less b d = true → less a d = true)
    (self : StaticFile) (calls : List (String × String))
    (hsorted : keySorted less self.root_entries) :
    keySorted less (self.AddEntries (orderedContainer less unique_keys) calls).root_entries := by
  induction calls generalizing self with
  | nil => simpa [AddEntries] using hsorted
  | cons e es ih =>
    have hstep : keySorted less
        (self.AddEntry (orderedContainer less unique_keys) e.1 e.2).root_entries := by
      simpa [StaticFile.AddEntry, orderedContainer] using
        insertByKey_keySorted less unique_keys hasymm htrans (e.1, e.2) _ hsorted
    have h := ih (self.AddEntry (orderedContainer less unique_keys) e.1 e.2) hstep
    simpa [AddEntries] using h

/-- The comparison of `std::string` is asymmetric. -/
theorem charsLess_asymm (a b : List Char) (h : charsLess a b = true) :
    charsLess b a = false := by
  induction a generalizing b with
  | nil =>
    cases b with
    | nil => simp [charsLess]
    | cons y ys => simp [charsLess]
  | cons x xs ih =>
    cases b with
    | nil => simp [charsLess] at h
    | cons y ys =>
      simp only [charsLess] at h ⊢
      by_cases h1 : x.toNat < y.toNat
      · have h2 : ¬ y.toNat < x.toNat := by omega
        simp [h1, h2]
      · by_cases h2 : y.toNat < x.toNat
        · simp [h1, h2] at h
        · simp only [h1, h2, if_false] at h ⊢
          exact ih ys h

/-- The comparison of `std::string` is transitive. -/
theorem charsLess_trans (a b d : List Char) (hab : charsLess a b = true)
    (hbd : charsLess b d = true) : charsLess a d = true := by
  induction a generalizing b d with
  | nil =>
    cases d with
    | nil =>
      cases b with
      | nil => simp [charsLess] at hab
      | cons y ys => simp [charsLess] at hbd
    | cons z zs => simp [charsLess]
  | cons x xs ih =>
    cases b with
    | nil => simp [charsLess] at hab
    | cons y ys =>
      cases d with
      | nil => simp [charsLess] at hbd
      | cons z zs =>
        simp only [charsLess] at hab hbd ⊢
        by_cases h1 : x.toNat < y.toNat
        · by_cases h3 : y.toNat < z.toNat
          · have : x.toNat < z.toNat := by omega
            simp [this]
          · by_cases h4 : z.toNat < y.toNat
            · simp [h3, h4] at hbd
            · have : x.toNat < z.toNat := by omega
              simp [this]
        · by_cases h2 : y.toNat < x.toNat
          · simp [h1, h2] at hab
          · simp only [h1, h2, if_false] at hab
            by_cases h3 : y.toNat < z.toNat
            · have : x.toNat < z.toNat := by omega
              simp [this]
            · by_cases h4 : z.toNat < y.toNat
              · simp [h3, h4] at hbd
              · simp only [h3, h4, if_false] at hbd
                have hx1 : ¬ x.toNat < z.toNat := by omega
                have hx2 : ¬ z.toNat < x.toNat := by omega
                simp only [hx1, hx2, if_false]
                exact ih ys zs hab hbd

/-- The loop of `onRequest` only reads the two modes of the interceptor. -/
theorem scanEntries_congr (a b : StaticFile) (ext : Externals) (ctx : Context)
    (hu : a.url_resolve_type = b.url_resolve_type)
    (hd : a.dir_resolve_type = b.dir_resolve_type) (es : List (String × String)) :
    scanEntries a ext ctx es = scanEntries b ext ctx es := by
  induction es with
  | nil => rfl
  | cons e es ih =>
    simp only [scanEntries, StaticFile.url_starts, StaticFile.dst_file, StaticFile.dir_root,
      hu, hd, ih]

/-- The loop of `onRequest` stops at the first entry whose prefix matches. -/
theorem scanEntries_first (self : StaticFile) (ext : Externals) (ctx : Context)
    (before : List (String × String)) (e : String × String) (rest : List (String × String))
    (hbefore : ∀ x ∈ before, iStartsWith ctx.url (self.url_starts ctx x) = false)
    (he : iStartsWith ctx.url (self.url_starts ctx e) = true) :
    scanEntries self ext ctx (before ++ e :: rest) = some (self.dst_file ext ctx e) := by
  induction before with
  | nil => simp [scanEntries, he]
  | cons b bs ih =>
    have hb : iStartsWith ctx.url (self.url_starts ctx b) = false :=
      hbefore b (List.mem_cons_self _ _)
    have hbs : ∀ x ∈ bs, iStartsWith ctx.url (self.url_starts ctx x) = false :=
      fun x hx => hbefore x (List.mem_cons_of_mem _ hx)
    simp [scanEntries, hb, ih hbs]

/-- The loop of `onRequest` finds nothing when no entry matches. -/
theorem scanEntries_none (self : StaticFile) (ext : Externals) (ctx : Context)
    (es : List (String × String))
    (hes : ∀ x ∈ es, iStartsWith ctx.url (self.url_starts ctx x) = false) :
    scanEntries self ext ctx es = none := by
  induction es with
  | nil => rfl
  | cons b bs ih =>
    have hb : iStartsWith ctx.url (self.url_starts ctx b) = false :=
      hes b (List.mem_cons_self _ _)
    have hbs : ∀ x ∈ bs, iStartsWith ctx.url (self.url_starts ctx x) = false :=
      fun x hx => hes x (List.mem_cons_of_mem _ hx)
    simp [scanEntries, hb, ih hbs]

/-- `onRequest` only appends calls to the trace. -/
theorem onRequest_trace (self : StaticFile) (ext : Externals) (ctx : Context) :
    (onRequest self ext ctx).trace = ctx.trace ++ requestCalls self ext ctx := by
  have key : ∃ l, (onRequest self ext ctx).trace = ctx.trace ++ l := by
    unfold onRequest
    split_ifs
    · exact ⟨_, rfl⟩
    · split
      · rename_i f _
        exact ⟨[Effect.SaveData data_name { found := some true, file := some f }, Effect.Stop],
          by simp [Context.SaveData, Context.Stop, Context.emit]⟩
      · exact ⟨_, rfl⟩
  obtain ⟨l, hl⟩ := key
  simp [requestCalls, hl]

/-- C1, the claim fails: the entries are added in the order `/i`, `/`, `/img/` and all
three match `/img/a.txt`.  The entry added first is (`/i`, `/one`), whose path
would be `/one/mg/a.txt`; a container ordered by `std::less` (map or multimap)
is scanned from `/` and gives `/two/img/a.txt`, and one ordered by
`std::greater` is scanned from `/img/` and gives `/three/a.txt`. -/
theorem onRequest_first_added_does_not_win :
    iStartsWith "/img/a.txt" "/i" = true ∧
    iStartsWith "/img/a.txt" "/" = true ∧
    iStartsWith "/img/a.txt" "/img/" = true ∧
    StaticFile.dst_file ⟨300, PathResolve.is_absolute, PathResolve.is_absolute, [], []⟩
      (posix []) ⟨HandlerMethod.GET, "/img/a.txt", "", "", [], []⟩ ("/i", "/one") =
      "/one/mg/a.txt" ∧
    (onRequest
      (StaticFile.AddEntries ⟨300, PathResolve.is_absolute, PathResolve.is_absolute, [], []⟩
        (orderedContainer stringLess true)
        [("/i", "/one"), ("/", "/two"), ("/img/", "/three")])
      (posix []) ⟨HandlerMethod.GET, "/img/a.txt", "", "", [], []⟩).LoadData data_name =
      { found := some true, file := some "/two/img/a.txt" } ∧
    (onRequest
      (StaticFile.AddEntries ⟨300, PathResolve.is_absolute, PathResolve.is_absolute, [], []⟩
        (orderedContainer stringLess false)
        [("/i", "/one"), ("/", "/two"), ("/img/", "/three")])
      (posix []) ⟨HandlerMethod.GET, "/img/a.txt", "", "", [], []⟩).LoadData data_name =
      { found := some true, file := some "/two/img/a.txt" } ∧
    (onRequest
      (StaticFile.AddEntries ⟨300, PathResolve.is_absolute, PathResolve.is_absolute, [], []⟩
        (orderedContainer stringGreater true)
        [("/i", "/one"), ("/", "/two"), ("/img/", "/three")])
      (posix []) ⟨HandlerMethod.GET, "/img/a.txt", "", "", [], []⟩).LoadData data_name =
      { found := some true, file := some "/three/a.txt" } ∧
    (onRequest
      (StaticFile.AddEntries ⟨300, PathResolve.is_absolute, PathResolve.is_absolute, [], []⟩
        (orderedContainer stringGreater false)
        [("/i", "/one"), ("/", "/two"), ("/img/", "/three")])
      (posix []) ⟨HandlerMethod.GET, "/img/a.txt", "", "", [], []⟩).LoadData data_name =
      { found := some true, file := some "/three/a.txt" } := by
  decide

/-- C1, as amended.  First match wins in scan order: on an interceptor configured by
a sequence of `AddEntry` calls, a GET request is claimed with the file path
computed from the first entry, in the iteration order of the entry container,
whose effective prefix the URL matches, whatever the order of the calls and
whatever entries come later in that order; and when the container is an ordered
associative container (over an asymmetric, transitive key comparison) that
order is key order: no entry before the winner has a greater key and no entry
after it a smaller one. -/
theorem onRequest_first_in_scan_order_wins (c : EntryContainer) (self : StaticFile)
    (ext : Externals) (ctx : Context) (calls : List (String × String))
    (before : List (String × String)) (first : String × String)
    (later : List (String × String))
    (hempty : self.root_entries = [])
    (hget : ctx.method = HandlerMethod.GET)
    (hscan : (self.AddEntries c calls).root_entries = before ++ first :: later)
    (hbefore : ∀ x ∈ before, iStartsWith ctx.url (self.url_starts ctx x) = false)
    (hfirst : iStartsWith ctx.url (self.url_starts ctx first) = true) :
    onRequest (self.AddEntries c calls) ext ctx =
      (ctx.SaveData data_name
        { found := some true, file := some (self.dst_file ext ctx first) }).Stop ∧
    ∀ (less : String → String → Bool) (unique_keys : Bool),
      (∀ a b, less a b = true → less b a = false) →
      (∀ a b d, less a b = true → less b d = true → less a d = true) →
      c = orderedContainer less unique_keys →
      (∀ m ∈ before, less first.1 m.1 = false) ∧
      (∀ m ∈ later, less m.1 first.1 = false) := by
  refine ⟨?_, ?_⟩
  · have hm := AddEntries_modes self c calls
    have hcongr := scanEntries_congr (self.AddEntries c calls) self ext ctx hm.1 hm.2
      (before ++ first :: later)
    have hfound := scanEntries_first self ext ctx before first later hbefore hfirst
    simp only [onRequest, hget, hscan, hcongr, hfound]
    simp
  · intro less unique_keys hasymm htrans hc
    subst hc
    have hsorted := AddEntries_keySorted less unique_keys hasymm htrans self calls
      (by simp [hempty, keySorted])
    rw [hscan] at hsorted
    have hparts := List.pairwise_append.mp hsorted
    refine ⟨?_, ?_⟩
    · intro m hm
      exact hparts.2.2 m hm first (List.mem_cons_self _ _)
    · intro m hm
      exact (List.pairwise_cons.mp hparts.2.1).1 m hm

/-- C1 as amended, a worked input: `/i`, `/` and `/img/` are added in this order to
a `std::map` ordered by `std::less`; the scan starts at `/`, which matches
`/img/a.txt`, and the stored path comes from that entry. -/
theorem onRequest_first_in_scan_order_wins_witness :
    (StaticFile.AddEntries ⟨300, PathResolve.is_absolute, PathResolve.is_absolute, [], []⟩
      (orderedContainer stringLess true)
      [("/i", "/one"), ("/", "/two"), ("/img/", "/three")]).root_entries =
      [] ++ ("/", "/two") :: [("/i", "/one"), ("/img/", "/three")] ∧
    onRequest
      (StaticFile.AddEntries ⟨300, PathResolve.is_absolute, PathResolve.is_absolute, [], []⟩
        (orderedContainer stringLess true)
        [("/i", "/one"), ("/", "/two"), ("/img/", "/three")])
      (posix []) ⟨HandlerMethod.GET, "/img/a.txt", "", "", [], []⟩ =
    (Context.SaveData ⟨HandlerMethod.GET, "/img/a.txt", "", "", [], []⟩ data_name
      { found := some true, file := some "/two/img/a.txt" }).Stop :=
  ⟨by decide,
    (onRequest_first_in_scan_order_wins (orderedContainer stringLess true)
      ⟨300, PathResolve.is_absolute, PathResolve.is_absolute, [], []⟩ (posix [])
      ⟨HandlerMethod.GET, "/img/a.txt", "", "", [], []⟩
      [("/i", "/one"), ("/", "/two"), ("/img/", "/three")]
      [] ("/", "/two") [("/i", "/one"), ("/img/", "/three")]
      rfl rfl (by decide) (by simp) (by decide)).1⟩

/-- C2, the claim fails where the directory root does not end with a separator:
with static root `/www/` and the entry (`/s/`, `static`), the request `/s/a.css`
is stored as `/www/static/a.css`, which is not the plain concatenation
`/www/` + `static` + `a.css`. -/
theorem onRequest_relative_not_plain_concatenation :
    iStartsWith "/s/a.css" ("" ++ "/s/") = true ∧
    (onRequest ⟨300, PathResolve.is_relative, PathResolve.is_relative, [("/s/", "static")], []⟩
      (posix []) ⟨HandlerMethod.GET, "/s/a.css", "", "/www/", [], []⟩).LoadData data_name =
      { found := some true, file := some "/www/static/a.css" } ∧
    (onRequest ⟨300, PathResolve.is_relative, PathResolve.is_relative, [("/s/", "static")], []⟩
      (posix []) ⟨HandlerMethod.GET, "/s/a.css", "", "/www/", [], []⟩).LoadData data_name ≠
      { found := some true,
        file := some ("/www/" ++ "static" ++ substr "/s/a.css" ("" ++ "/s/").length) } := by
  decide

/-- C2, as amended.  In relative mode, a GET request whose URL starts, letter case
ignored, with `urlRoot + e.prefix`, `e` being the first entry in scan order for
which this holds, is stored under `static-file` as `found = true` with the file
`fs::path(staticRootPath + e.dirRoot) / remainder`, where `remainder` is the URL
without its first `length (urlRoot + e.prefix)` chars; the only calls made are
that `SaveData` and then `Stop`, so `Pass` is not called. -/
theorem onRequest_relative_resolution (self : StaticFile) (ext : Externals) (ctx : Context)
    (before : List (String × String)) (e : String × String) (rest : List (String × String))
    (hget : ctx.method = HandlerMethod.GET)
    (hu : self.url_resolve_type = PathResolve.is_relative)
    (hd : self.dir_resolve_type = PathResolve.is_relative)
    (hentries : self.root_entries = before ++ e :: rest)
    (hbefore : ∀ x ∈ before, iStartsWith ctx.url (ctx.urlRoot ++ x.1) = false)
    (he : iStartsWith ctx.url (ctx.urlRoot ++ e.1) = true) :
    (onRequest self ext ctx).LoadData data_name =
      { found := some true
        file := some (ext.pathAppend (ctx.staticRootPath ++ e.2)
          (substr ctx.url (ctx.urlRoot ++ e.1).length)) } ∧
    requestCalls self ext ctx =
      [Effect.SaveData data_name
        { found := some true
          file := some (ext.pathAppend (ctx.staticRootPath ++ e.2)
            (substr ctx.url (ctx.urlRoot ++ e.1).length)) },
       Effect.Stop] ∧
    Effect.Pass ∉ requestCalls self ext ctx := by
  have hb : ∀ x ∈ before, iStartsWith ctx.url (self.url_starts ctx x) = false := by
    intro x hx
    simpa [StaticFile.url_starts, hu] using hbefore x hx
  have he2 : iStartsWith ctx.url (self.url_starts ctx e) = true := by
    simpa [StaticFile.url_starts, hu] using he
  have hfound := scanEntries_first self ext ctx before e rest hb he2
  have hrun : onRequest self ext ctx =
      (ctx.SaveData data_name
        { found := some true
          file := some (ext.pathAppend (ctx.staticRootPath ++ e.2)
            (substr ctx.url (ctx.urlRoot ++ e.1).length)) }).Stop := by
    simp only [onRequest, hget, hentries, hfound]
    simp [StaticFile.dst_file, StaticFile.dir_root, StaticFile.url_starts, hu, hd]
  have hcalls : requestCalls self ext ctx =
      [Effect.SaveData data_name
        { found := some true
          file := some (ext.pathAppend (ctx.staticRootPath ++ e.2)
            (substr ctx.url (ctx.urlRoot ++ e.1).length)) },
       Effect.Stop] := by
    simp [requestCalls, hrun, Context.SaveData, Context.Stop, Context.emit]
  refine ⟨?_, hcalls, ?_⟩
  · simp [hrun, Context.SaveData, Context.Stop, Context.emit, Context.LoadData, List.lookup]
  · rw [hcalls]
    simp

/-- C2 as amended, a worked input: the entry (`/s/`, `static/`) under the URL root
`/app` and the static root `/www/`; the request `/APP/S/Logo.css` is stored as
`/www/static/Logo.css`. -/
theorem onRequest_relative_resolution_witness :
    (onRequest
      ⟨300, PathResolve.is_relative, PathResolve.is_relative, [("/s/", "static/")], []⟩
      (posix []) ⟨HandlerMethod.GET, "/APP/S/Logo.css", "/app", "/www/", [], []⟩).LoadData
        data_name = { found := some true, file := some "/www/static/Logo.css" } :=
  (onRequest_relative_resolution
    ⟨300, PathResolve.is_relative, PathResolve.is_relative, [("/s/", "static/")], []⟩
    (posix []) ⟨HandlerMethod.GET, "/APP/S/Logo.css", "/app", "/www/", [], []⟩
    [] ("/s/", "static/") [] rfl rfl rfl rfl (by simp) (by decide)).1

/-- C3. A request whose method is not GET is never claimed: whatever the entries,
`onRequest` makes the single call `Pass` (so no `Stop` and no `SaveData`) and
leaves the per-request data as it was. -/
theorem onRequest_non_get_only_passes (self : StaticFile) (ext : Externals) (ctx : Context)
    (hmethod : ctx.method ≠ HandlerMethod.GET) :
    requestCalls self ext ctx = [Effect.Pass] ∧
    (onRequest self ext ctx).data = ctx.data ∧
    onRequest self ext ctx = ctx.Pass := by
  have hrun : onRequest self ext ctx = ctx.Pass := by
    simp [onRequest, hmethod]
  refine ⟨?_, ?_, hrun⟩
  · simp [requestCalls, hrun, Context.Pass, Context.emit]
  · simp [hrun, Context.Pass, Context.emit]

/-- C3, a worked input: a request with another method than GET on a URL that an
entry matches. -/
theorem onRequest_non_get_only_passes_witness :
    iStartsWith "/s/a.css" "/s/" = true ∧
    requestCalls
      ⟨300, PathResolve.is_absolute, PathResolve.is_absolute, [("/s/", "/www/")], []⟩
      (posix []) ⟨HandlerMethod.other 3, "/s/a.css", "", "", [], []⟩ = [Effect.Pass] :=
  ⟨by decide,
    (onRequest_non_get_only_passes
      ⟨300, PathResolve.is_absolute, PathResolve.is_absolute, [("/s/", "/www/")], []⟩
      (posix []) ⟨HandlerMethod.other 3, "/s/a.css", "", "", [], []⟩ (by decide)).1⟩

/-! ## The response phase: streaming -/

/-- The loop `while (ifs)` flushes the bodies `flushed` and leaves `pending`. -/
theorem readLoop_eq (reads : List (List Byte)) (ctx : Context) (body : List Byte) :
    readLoop reads ctx body =
      ({ ctx with
          trace := ctx.trace ++ (flushed reads body).map Effect.ContinueChunkedResponse },
        pending reads body) := by
  induction reads generalizing ctx body with
  | nil => simp [readLoop, flushed, pending]
  | cons r rs ih =>
    have hb : (if r.length > 0 then body ++ r else body) = body ++ r := by
      by_cases hr : r.length > 0
      · simp [hr]
      · have : r = [] := List.length_eq_zero.mp (by omega)
        simp [this]
    simp only [readLoop, flushed, pending, hb]
    by_cases hlen : (body ++ r).length > max_byte_one_chunked_body
    · simp only [hlen, if_true, ih]
      simp [Context.ContinueChunkedResponse, Context.emit]
    · simp only [hlen, if_false, ih]

/-- The context `onResponse` leaves once the file `dst` is open. -/
theorem sendFile_eq (self : StaticFile) (ext : Externals) (ctx : Context) (dst : String)
    (reads : List (List Byte)) :
    sendFile self ext ctx dst reads =
      { ctx with
        data := ctx.data.filter (fun kv => kv.1 != data_name)
        trace := ctx.trace ++ successCalls self ext dst reads } := by
  simp only [sendFile, readLoop_eq, successCalls, segments]
  by_cases hct : (ext.GetMIMEType (ext.extension dst) != "") = true <;>
    by_cases hpend : (pending reads [] != []) = true <;>
    simp [hct, hpend, Context.SetContentType, Context.CacheControlMaxAge,
      Context.StartChunkedResponse, Context.ContinueChunkedResponse, Context.RemoveData,
      Context.StopChunkedResponse, Context.Pass, Context.emit]

/-- `onResponse` on a claimed request with a stored path that is not empty. -/
theorem onResponse_claimed (self : StaticFile) (ext : Externals) (ctx : Context) (p : String)
    (hdata : ctx.LoadData data_name = { found := some true, file := some p })
    (hp : p ≠ "") :
    onResponse self ext ctx =
      match resolve self ext p with
      | Resolution.fault => ctx.RenderInternalServerError.Pass
      | Resolution.notFound => ctx.RenderNofound.Pass
      | Resolution.resolved dst =>
        match ext.ifstream dst with
        | none => ctx.RenderInternalServerError.Pass
        | some reads => sendFile self ext ctx dst reads := by
  simp [onResponse, hdata, Json.empty, hp]

/-- The calls of `onResponse` on a claimed request whose file is resolved and opened. -/
theorem responseCalls_success (self : StaticFile) (ext : Externals) (ctx : Context)
    (p dst : String) (reads : List (List Byte))
    (hdata : ctx.LoadData data_name = { found := some true, file := some p })
    (hp : p ≠ "")
    (hres : resolve self ext p = Resolution.resolved dst)
    (hopen : ext.ifstream dst = some reads) :
    responseCalls self ext ctx = successCalls self ext dst reads := by
  simp [responseCalls, onResponse_claimed self ext ctx p hdata hp, hres, hopen, sendFile_eq]

/-- The bodies in a concatenation of call lists. -/
theorem chunkBodies_append (a b : List Effect) :
    chunkBodies (a ++ b) = chunkBodies a ++ chunkBodies b := by
  induction a with
  | nil => rfl
  | cons e es ih => cases e <;> simp [chunkBodies, ih]

/-- The bodies in a list of `ContinueChunkedResponse` calls. -/
theorem chunkBodies_map (l : List (List Byte)) :
    chunkBodies (l.map Effect.ContinueChunkedResponse) = l := by
  induction l with
  | nil => rfl
  | cons b bs ih => simp [chunkBodies, ih]

/-- The bodies streamed on the success path are `segments`. -/
theorem chunkBodies_successCalls (self : StaticFile) (ext : Externals) (dst : String)
    (reads : List (List Byte)) :
    chunkBodies (successCalls self ext dst reads) = segments reads := by
  simp only [successCalls, chunkBodies_append, chunkBodies_map]
  by_cases hct : (ext.GetMIMEType (ext.extension dst) != "") = true <;>
    simp [hct, chunkBodies]

/-- What is flushed and what is left make up what was buffered and read. -/
theorem flushed_flatten (reads : List (List Byte)) (body : List Byte) :
    (flushed reads body).flatten ++ pending reads body = body ++ reads.flatten := by
  induction reads generalizing body with
  | nil => simp [flushed, pending]
  | cons r rs ih =>
    simp only [flushed, pending]
    by_cases hlen : (body ++ r).length > max_byte_one_chunked_body
    · simp only [hlen, if_true, List.flatten_cons, List.append_assoc]
      rw [ih []]
      simp
    · simp only [hlen, if_false, ih, List.flatten_cons, List.append_assoc]

/-- The segments make up the bytes read. -/
theorem segments_flatten (reads : List (List Byte)) :
    (segments reads).flatten = reads.flatten := by
  have h := flushed_flatten reads []
  simp only [segments]
  by_cases hpend : (pending reads [] != []) = true
  · simpa [hpend] using h
  · have hnil : pending reads [] = [] := by simpa using hpend
    simpa [hnil] using h

/-- A body flushed inside the loop is longer than the threshold. -/
theorem flushed_long (reads : List (List Byte)) (body : List Byte) :
    ∀ s ∈ flushed reads body, max_byte_one_chunked_body < s.length := by
  induction reads generalizing body with
  | nil => simp [flushed]
  | cons r rs ih =>
    intro s hs
    simp only [flushed] at hs
    by_cases hlen : (body ++ r).length > max_byte_one_chunked_body
    · simp only [hlen, if_true, List.mem_cons] at hs
      rcases hs with rfl | hs
      · exact hlen
      · exact ih [] s hs
    · simp only [hlen, if_false] at hs
      exact ih _ s hs

/-- No segment is empty. -/
theorem segments_ne_nil (reads : List (List Byte)) : ∀ s ∈ segments reads, s ≠ [] := by
  intro s hs
  simp only [segments, List.mem_append] at hs
  rcases hs with hs | hs
  · have := flushed_long reads [] s hs
    intro h
    simp [h, max_byte_one_chunked_body] at this
  · by_cases hpend : (pending reads [] != []) = true
    · simp only [hpend, if_true, List.mem_singleton] at hs
      subst hs
      simpa using hpend
    · simp [hpend] at hs

/-- Blocks that deliver no byte give no segment. -/
theorem segments_of_no_bytes (reads : List (List Byte)) (hzero : reads.flatten = []) :
    segments reads = [] := by
  have hflat := segments_flatten reads
  rw [hzero] at hflat
  have hne := segments_ne_nil reads
  cases hseg : segments reads with
  | nil => rfl
  | cons s ss =>
    exfalso
    have hs : s ∈ segments reads := by simp [hseg]
    have hnil : ∀ l ∈ segments reads, l = [] := List.flatten_eq_nil_iff.mp hflat
    exact hne s hs (hnil s hs)

/-- The five ways `onResponse` can run: pass through, Bad-Request, Not-Found,
Internal-Server-Error, or the success path on an opened file. -/
theorem responseCalls_cases (self : StaticFile) (ext : Externals) (ctx : Context) :
    responseCalls self ext ctx = [Effect.Pass] ∨
    responseCalls self ext ctx = [Effect.RenderBadRequest] ∨
    responseCalls self ext ctx = [Effect.RenderNofound, Effect.Pass] ∨
    responseCalls self ext ctx = [Effect.RenderInternalServerError, Effect.Pass] ∨
    ∃ dst reads, ext.ifstream dst = some reads ∧
      responseCalls self ext ctx = successCalls self ext dst reads := by
  unfold responseCalls onResponse
  by_cases hempty : (ctx.LoadData data_name).empty = true
  · left
    simp [hempty, Context.Pass, Context.emit]
  · cases hfound : (ctx.LoadData data_name).found with
    | none => left; simp [hempty, hfound, Context.Pass, Context.emit]
    | some b =>
      cases b with
      | false => left; simp [hempty, hfound, Context.Pass, Context.emit]
      | true =>
        by_cases hname : ((match (ctx.LoadData data_name).file with
            | none => ""
            | some s => s) == "") = true
        · right; left
          simp only [hempty, hfound, hname]
          simp [Context.RenderBadRequest, Context.emit]
        · simp only [hempty, hfound, hname]
          cases hres : resolve self ext (match (ctx.LoadData data_name).file with
              | none => ""
              | some s => s) with
          | fault =>
            right; right; right; left
            simp [Context.RenderInternalServerError, Context.Pass, Context.emit]
          | notFound =>
            right; right; left
            simp [Context.RenderNofound, Context.Pass, Context.emit]
          | resolved dst =>
            cases hopen : ext.ifstream dst with
            | none =>
              right; right; right; left
              simp [hopen, Context.RenderInternalServerError, Context.Pass, Context.emit]
            | some reads =>
              right; right; right; right
              exact ⟨dst, reads, hopen, by simp [hopen, sendFile_eq]⟩

/-- `onResponse` only appends calls to the trace. -/
theorem onResponse_trace (self : StaticFile) (ext : Externals) (ctx : Context) :
    (onResponse self ext ctx).trace = ctx.trace ++ responseCalls self ext ctx := by
  have key : ∃ l, (onResponse self ext ctx).trace = ctx.trace ++ l := by
    unfold onResponse
    simp only []
    split_ifs
    · exact ⟨_, rfl⟩
    · exact ⟨_, rfl⟩
    · exact ⟨_, rfl⟩
    · split
      · exact ⟨[Effect.RenderInternalServerError, Effect.Pass], by
          simp [Context.RenderInternalServerError, Context.Pass, Context.emit]⟩
      · exact ⟨[Effect.RenderNofound, Effect.Pass], by
          simp [Context.RenderNofound, Context.Pass, Context.emit]⟩
      · split
        · exact ⟨[Effect.RenderInternalServerError, Effect.Pass], by
            simp [Context.RenderInternalServerError, Context.Pass, Context.emit]⟩
        · exact ⟨_, by rw [sendFile_eq]⟩
  obtain ⟨l, hl⟩ := key
  simp [responseCalls, hl]

/-- C4. Streaming is lossless: when the file of a claimed request is resolved,
is opened, and its content is what the reads deliver (reads of any sizes, so
also reads of at most 2048 bytes), the bodies handed to
`ContinueChunkedResponse`, concatenated in call order, are the content, and
their lengths add up to its length. -/
theorem onResponse_streaming_lossless (self : StaticFile) (ext : Externals) (ctx : Context)
    (p dst : String) (reads : List (List Byte)) (content : List Byte)
    (hdata : ctx.LoadData data_name = { found := some true, file := some p })
    (hp : p ≠ "")
    (hres : resolve self ext p = Resolution.resolved dst)
    (hopen : ext.ifstream dst = some reads)
    (hcontent : reads.flatten = content) :
    (chunkBodies (responseCalls self ext ctx)).flatten = content ∧
    ((chunkBodies (responseCalls self ext ctx)).map List.length).sum = content.length := by
  have hcalls := responseCalls_success self ext ctx p dst reads hdata hp hres hopen
  have hflat : (chunkBodies (responseCalls self ext ctx)).flatten = content := by
    rw [hcalls, chunkBodies_successCalls, segments_flatten, hcontent]
  refine ⟨hflat, ?_⟩
  rw [← List.length_flatten, hflat]

/-- C4, a worked input: a file of three bytes. -/
theorem onResponse_streaming_lossless_witness :
    (chunkBodies (responseCalls
      ⟨300, PathResolve.is_relative, PathResolve.is_relative, [], []⟩
      (posix [("/www/a.txt", [1, 2, 3])])
      ⟨HandlerMethod.GET, "/a.txt", "", "/www",
        [(data_name, { found := some true, file := some "/www/a.txt" })], []⟩)).flatten =
      [1, 2, 3] :=
  (onResponse_streaming_lossless
    ⟨300, PathResolve.is_relative, PathResolve.is_relative, [], []⟩
    (posix [("/www/a.txt", [1, 2, 3])])
    ⟨HandlerMethod.GET, "/a.txt", "", "/www",
      [(data_name, { found := some true, file := some "/www/a.txt" })], []⟩
    "/www/a.txt" "/www/a.txt" [[1, 2, 3]] [1, 2, 3]
    (by decide) (by decide) (by decide) (by decide) (by decide)).1

/-- C6. No empty flush: when the file of a claimed request is resolved and opened
and the reads deliver no byte (a zero-byte file), `onResponse` makes the calls of
a successful chunked response (`StartChunkedResponse`, then `RemoveData`,
`StopChunkedResponse` and `Pass`) without any `ContinueChunkedResponse`; and in
every run of `onResponse`, whatever the context and the file, no body handed to
`ContinueChunkedResponse` is empty. -/
theorem onResponse_no_empty_flush (self : StaticFile) (ext : Externals) :
    (∀ (ctx : Context) (p dst : String) (reads : List (List Byte)),
      ctx.LoadData data_name = { found := some true, file := some p } →
      p ≠ "" →
      resolve self ext p = Resolution.resolved dst →
      ext.ifstream dst = some reads →
      reads.flatten = [] →
      responseCalls self ext ctx =
        (if ext.GetMIMEType (ext.extension dst) != "" then
          [Effect.SetContentType (ext.GetMIMEType (ext.extension dst))] else []) ++
        [Effect.CacheControlMaxAge self.cache_max_age, Effect.StartChunkedResponse,
         Effect.RemoveData data_name, Effect.StopChunkedResponse, Effect.Pass] ∧
      chunkBodies (responseCalls self ext ctx) = []) ∧
    ∀ (ctx : Context), ∀ body ∈ chunkBodies (responseCalls self ext ctx), body ≠ [] := by
  refine ⟨?_, ?_⟩
  · intro ctx p dst reads hdata hp hres hopen hzero
    have hcalls := responseCalls_success self ext ctx p dst reads hdata hp hres hopen
    refine ⟨?_, ?_⟩
    · rw [hcalls]
      simp [successCalls, segments_of_no_bytes reads hzero]
    · rw [hcalls, chunkBodies_successCalls, segments_of_no_bytes reads hzero]
  · intro ctx body hbody
    rcases responseCalls_cases self ext ctx with h | h | h | h | ⟨d, r, _, h⟩
    · simp [h, chunkBodies] at hbody
    · simp [h, chunkBodies] at hbody
    · simp [h, chunkBodies] at hbody
    · simp [h, chunkBodies] at hbody
    · rw [h, chunkBodies_successCalls] at hbody
      exact segments_ne_nil r body hbody

/-- C6, a worked input: an existing file without bytes. -/
theorem onResponse_no_empty_flush_witness :
    responseCalls
      ⟨300, PathResolve.is_relative, PathResolve.is_relative, [], []⟩
      (posix [("/www/empty.txt", [])])
      ⟨HandlerMethod.GET, "/empty.txt", "", "/www",
        [(data_name, { found := some true, file := some "/www/empty.txt" })], []⟩ =
      [Effect.SetContentType "text/plain", Effect.CacheControlMaxAge 300,
       Effect.StartChunkedResponse, Effect.RemoveData "static-file",
       Effect.StopChunkedResponse, Effect.Pass] :=
  ((onResponse_no_empty_flush
    ⟨300, PathResolve.is_relative, PathResolve.is_relative, [], []⟩
    (posix [("/www/empty.txt", [])])).1
    ⟨HandlerMethod.GET, "/empty.txt", "", "/www",
      [(data_name, { found := some true, file := some "/www/empty.txt" })], []⟩
    "/www/empty.txt" "/www/empty.txt" [[]]
    (by decide) (by decide) (by decide) (by decide) (by decide)).1

/-- C7, the run that breaks the claim: with an absolute directory root, the entry
(`/x`, empty root) and the request `GET /x`, `onRequest` stores an empty path and
`onResponse` then makes the single call `RenderBadRequest`: `Pass` is not called. -/
theorem onResponse_bad_request_without_pass :
    (onRequest ⟨300, PathResolve.is_absolute, PathResolve.is_absolute, [("/x", "")], []⟩
      (posix []) ⟨HandlerMethod.GET, "/x", "", "", [], []⟩).LoadData data_name =
      { found := some true, file := some "" } ∧
    responseCalls ⟨300, PathResolve.is_absolute, PathResolve.is_absolute, [("/x", "")], []⟩
      (posix [])
      (onRequest ⟨300, PathResolve.is_absolute, PathResolve.is_absolute, [("/x", "")], []⟩
        (posix []) ⟨HandlerMethod.GET, "/x", "", "", [], []⟩) =
      [Effect.RenderBadRequest] ∧
    Effect.Pass ∉
      responseCalls ⟨300, PathResolve.is_absolute, PathResolve.is_absolute, [("/x", "")], []⟩
        (posix [])
        (onRequest ⟨300, PathResolve.is_absolute, PathResolve.is_absolute, [("/x", "")], []⟩
          (posix []) ⟨HandlerMethod.GET, "/x", "", "", [], []⟩) := by
  decide

/-! ## The response phase: segment sizes -/

/-- While the buffer stays within the threshold nothing is flushed. -/
theorem flushed_pending_below (rs rest : List (List Byte)) (body : List Byte)
    (hlen : (body ++ rs.flatten).length ≤ max_byte_one_chunked_body) :
    flushed (rs ++ rest) body = flushed rest (body ++ rs.flatten) ∧
    pending (rs ++ rest) body = pending rest (body ++ rs.flatten) := by
  induction rs generalizing body with
  | nil => simp
  | cons r rs ih =>
    have hnot : ¬ (body ++ r).length > max_byte_one_chunked_body := by
      simp only [List.flatten_cons, List.length_append] at hlen
      simp only [List.length_append]
      omega
    have hlen2 : ((body ++ r) ++ rs.flatten).length ≤ max_byte_one_chunked_body := by
      simpa [List.append_assoc] using hlen
    have h := ih (body ++ r) hlen2
    simp only [List.cons_append, flushed, pending, hnot, if_false, List.flatten_cons]
    simpa [List.append_assoc] using h

/-- A body flushed inside the loop crossed the threshold with the block read last. -/
theorem flushed_first_exceed (reads : List (List Byte)) (body : List Byte)
    (hbody : body.length ≤ max_byte_one_chunked_body) :
    ∀ s ∈ flushed reads body, ∃ old rdbuf, s = old ++ rdbuf ∧ rdbuf ∈ reads ∧
      old.length ≤ max_byte_one_chunked_body ∧ max_byte_one_chunked_body < s.length := by
  induction reads generalizing body with
  | nil => simp [flushed]
  | cons r rs ih =>
    intro s hs
    simp only [flushed] at hs
    by_cases hlen : (body ++ r).length > max_byte_one_chunked_body
    · simp only [hlen, if_true, List.mem_cons] at hs
      rcases hs with rfl | hs
      · exact ⟨body, r, rfl, List.mem_cons_self _ _, hbody, hlen⟩
      · obtain ⟨old, rd, h1, h2, h3, h4⟩ := ih [] (by simp) s hs
        exact ⟨old, rd, h1, List.mem_cons_of_mem _ h2, h3, h4⟩
    · simp only [hlen, if_false] at hs
      obtain ⟨old, rd, h1, h2, h3, h4⟩ := ih (body ++ r) (by omega) s hs
      exact ⟨old, rd, h1, List.mem_cons_of_mem _ h2, h3, h4⟩

/-- With reads of at most 2048 bytes, a body flushed inside the loop has at most
131072 + 2048 bytes and the body left after the loop at most 131072. -/
theorem flushed_pending_bounded (reads : List (List Byte)) (body : List Byte)
    (hbody : body.length ≤ max_byte_one_chunked_body)
    (hread : ∀ r ∈ reads, r.length ≤ max_byte_read_one_time) :
    (∀ s ∈ flushed reads body,
      s.length ≤ max_byte_one_chunked_body + max_byte_read_one_time) ∧
    (pending reads body).length ≤ max_byte_one_chunked_body := by
  induction reads generalizing body with
  | nil => simpa [flushed, pending] using hbody
  | cons r rs ih =>
    have hr : r.length ≤ max_byte_read_one_time := hread r (List.mem_cons_self _ _)
    have hrs : ∀ x ∈ rs, x.length ≤ max_byte_read_one_time :=
      fun x hx => hread x (List.mem_cons_of_mem _ hx)
    simp only [flushed, pending]
    by_cases hlen : (body ++ r).length > max_byte_one_chunked_body
    · simp only [hlen, if_true, List.mem_cons]
      have h := ih [] (by simp) hrs
      refine ⟨?_, h.2⟩
      intro s hs
      rcases hs with rfl | hs
      · simp only [List.length_append]
        omega
      · exact h.1 s hs
    · simp only [hlen, if_false]
      exact ih (body ++ r) (by omega) hrs

/-- With reads of at most 2048 bytes no segment has more than 131072 + 2048 bytes. -/
theorem segments_bounded (reads : List (List Byte))
    (hread : ∀ r ∈ reads, r.length ≤ max_byte_read_one_time) :
    ∀ s ∈ segments reads, s.length ≤ max_byte_one_chunked_body + max_byte_read_one_time := by
  have h := flushed_pending_bounded reads [] (by simp) hread
  intro s hs
  simp only [segments, List.mem_append] at hs
  rcases hs with hs | hs
  · exact h.1 s hs
  · by_cases hpend : (pending reads [] != []) = true
    · simp only [hpend, if_true, List.mem_singleton] at hs
      subst hs
      omega
    · simp [hpend] at hs

/-- More than 131072 + 2048 bytes, read in blocks of at most 2048, make at least
two segments. -/
theorem segments_two_le (reads : List (List Byte))
    (hread : ∀ r ∈ reads, r.length ≤ max_byte_read_one_time)
    (hlarge : max_byte_one_chunked_body + max_byte_read_one_time < reads.flatten.length) :
    2 ≤ (segments reads).length := by
  have hflat := segments_flatten reads
  have hb := segments_bounded reads hread
  cases hseg : segments reads with
  | nil =>
    rw [hseg] at hflat
    simp only [List.flatten_nil] at hflat
    rw [← hflat] at hlarge
    simp at hlarge
  | cons s ss =>
    cases ss with
    | nil =>
      rw [hseg] at hflat
      simp only [List.flatten_cons, List.flatten_nil, List.append_nil] at hflat
      have hs := hb s (by simp [hseg])
      rw [← hflat] at hlarge
      omega
    | cons t ts => simp

/-- Every segment but the last was flushed inside the loop. -/
theorem segments_dropLast_flushed (reads : List (List Byte)) :
    ∀ s ∈ (segments reads).dropLast, s ∈ flushed reads [] := by
  intro s hs
  simp only [segments] at hs
  by_cases hpend : (pending reads [] != []) = true
  · simp only [hpend, if_true, List.dropLast_concat] at hs
    exact hs
  · have hnil : (if (pending reads [] != []) = true then [pending reads []] else []) =
        ([] : List (List Byte)) := by simp [hpend]
    rw [hnil, List.append_nil] at hs
    exact List.mem_of_mem_dropLast hs

/-- The reads of a regular file: every block but the last has 2048 bytes, the last
has fewer, and together they are the content. -/
theorem ifstreamReadsAux_shape (fuel : Nat) (rest : List Byte) (hfuel : rest.length < fuel) :
    ∃ init last, ifstreamReadsAux fuel rest = init ++ [last] ∧
      (∀ r ∈ init, r.length = max_byte_read_one_time) ∧
      last.length < max_byte_read_one_time ∧ init.flatten ++ last = rest := by
  induction fuel generalizing rest with
  | zero => omega
  | succ n ih =>
    simp only [ifstreamReadsAux]
    by_cases hfull : max_byte_read_one_time ≤ rest.length
    · have hdrop : (rest.drop max_byte_read_one_time).length < n := by
        simp only [List.length_drop]
        simp only [max_byte_read_one_time] at hfull ⊢
        omega
      obtain ⟨init, last, h1, h2, h3, h4⟩ := ih (rest.drop max_byte_read_one_time) hdrop
      refine ⟨rest.take max_byte_read_one_time :: init, last, ?_, ?_, h3, ?_⟩
      · simp [hfull, h1]
      · intro r hr
        rcases List.mem_cons.mp hr with rfl | hr
        · simp only [List.length_take]
          omega
        · exact h2 r hr
      · simp only [List.flatten_cons, List.append_assoc, h4, List.take_append_drop]
    · refine ⟨[], rest, ?_, ?_, ?_, ?_⟩
      · simp [hfull]
      · simp
      · omega
      · simp

/-- The reads of a regular file deliver its content. -/
theorem ifstreamReads_flatten (content : List Byte) :
    (ifstreamReads content).flatten = content := by
  obtain ⟨init, last, h1, _, _, h4⟩ :=
    ifstreamReadsAux_shape (content.length + 1) content (by omega)
  simp [ifstreamReads, h1, h4]

/-- The reads of a regular file deliver at most 2048 bytes each. -/
theorem ifstreamReads_block_le (content : List Byte) :
    ∀ r ∈ ifstreamReads content, r.length ≤ max_byte_read_one_time := by
  obtain ⟨init, last, h1, h2, h3, _⟩ :=
    ifstreamReadsAux_shape (content.length + 1) content (by omega)
  intro r hr
  simp only [ifstreamReads, h1, List.mem_append, List.mem_singleton] at hr
  rcases hr with hr | rfl
  · exact le_of_eq (h2 r hr)
  · omega

/-- Blocks of one size: the length of their concatenation. -/
theorem length_flatten_of_blocks (n : Nat) (init : List (List Byte))
    (hinit : ∀ r ∈ init, r.length = n) : init.flatten.length = n * init.length := by
  induction init with
  | nil => simp
  | cons r rs ih =>
    have hr := hinit r (List.mem_cons_self _ _)
    have hrs := ih (fun x hx => hinit x (List.mem_cons_of_mem _ hx))
    simp only [List.flatten_cons, List.length_append, List.length_cons, hr, hrs]
    ring

/-- A regular file of more than 131072 and fewer than 131072 + 2048 bytes goes out
as one segment. -/
theorem segments_ifstreamReads_single (content : List Byte)
    (hlow : max_byte_one_chunked_body < content.length)
    (hhigh : content.length < max_byte_one_chunked_body + max_byte_read_one_time) :
    segments (ifstreamReads content) = [content] := by
  obtain ⟨init, last, h1, h2, h3, h4⟩ :=
    ifstreamReadsAux_shape (content.length + 1) content (by omega)
  have hlen := length_flatten_of_blocks max_byte_read_one_time init h2
  have htotal : content.length = init.flatten.length + last.length := by
    rw [← h4, List.length_append]
  have hbelow : (([] : List Byte) ++ init.flatten).length ≤ max_byte_one_chunked_body := by
    simp only [List.nil_append]
    simp only [max_byte_one_chunked_body, max_byte_read_one_time] at *
    omega
  have hstep := flushed_pending_below init [last] [] hbelow
  have hover : (init.flatten ++ last).length > max_byte_one_chunked_body := by
    rw [h4]
    exact hlow
  have hflushed : flushed (init ++ [last]) [] = [content] := by
    rw [hstep.1]
    simp only [List.nil_append, flushed, h4, gt_iff_lt, hlow, if_true]
  have hpending : pending (init ++ [last]) [] = [] := by
    rw [hstep.2]
    simp only [List.nil_append, pending, h4, gt_iff_lt, hlow, if_true]
  simp [segments, ifstreamReads, h1, hflushed, hpending]

/-- The length of `content131073`. -/
theorem content131073_length : content131073.length = 131073 := List.length_replicate _ _

/-- The length of `content133121`. -/
theorem content133121_length : content133121.length = 133121 := List.length_replicate _ _

/-- C5, the claim fails between 131073 and 133120 bytes: a regular file of 131073
bytes is longer than 128 KiB and goes out as one segment, not as two or more. -/
theorem onResponse_single_segment_above_threshold :
    131072 < content131073.length ∧
    chunkBodies (responseCalls
      ⟨300, PathResolve.is_relative, PathResolve.is_relative, [], []⟩
      (posix [("/www/big.bin", content131073)])
      ⟨HandlerMethod.GET, "/big.bin", "", "/www",
        [(data_name, { found := some true, file := some "/www/big.bin" })], []⟩) =
      [content131073] ∧
    ¬ 2 ≤ (chunkBodies (responseCalls
      ⟨300, PathResolve.is_relative, PathResolve.is_relative, [], []⟩
      (posix [("/www/big.bin", content131073)])
      ⟨HandlerMethod.GET, "/big.bin", "", "/www",
        [(data_name, { found := some true, file := some "/www/big.bin" })], []⟩)).length := by
  have hcalls := responseCalls_success
    ⟨300, PathResolve.is_relative, PathResolve.is_relative, [], []⟩
    (posix [("/www/big.bin", content131073)])
    ⟨HandlerMethod.GET, "/big.bin", "", "/www",
      [(data_name, { found := some true, file := some "/www/big.bin" })], []⟩
    "/www/big.bin" "/www/big.bin" (ifstreamReads content131073)
    (by decide) (by decide) (by decide) (by simp [posix, List.lookup])
  have hone : segments (ifstreamReads content131073) = [content131073] :=
    segments_ifstreamReads_single content131073
      (by rw [content131073_length]; decide)
      (by rw [content131073_length]; decide)
  rw [hcalls, chunkBodies_successCalls, hone]
  exact ⟨by rw [content131073_length]; decide, rfl, by simp⟩

/-- C5, as amended.  When the file of a claimed request is resolved, opened and read
in blocks of at most 2048 bytes: a file of more than 131072 + 2048 = 133120 bytes
goes out as at least two segments; and, whatever the length of the file, every
segment except the last was flushed at the moment the unsent bytes first exceeded
131072: it is longer than 131072 bytes and, without the block read last, it has at
most 131072 bytes. -/
theorem onResponse_large_file_segments (self : StaticFile) (ext : Externals) (ctx : Context)
    (p dst : String) (reads : List (List Byte))
    (hdata : ctx.LoadData data_name = { found := some true, file := some p })
    (hp : p ≠ "")
    (hres : resolve self ext p = Resolution.resolved dst)
    (hopen : ext.ifstream dst = some reads)
    (hread : ∀ r ∈ reads, r.length ≤ max_byte_read_one_time) :
    (max_byte_one_chunked_body + max_byte_read_one_time < reads.flatten.length →
      2 ≤ (chunkBodies (responseCalls self ext ctx)).length) ∧
    ∀ s ∈ (chunkBodies (responseCalls self ext ctx)).dropLast,
      ∃ old rdbuf, s = old ++ rdbuf ∧ rdbuf ∈ reads ∧
        old.length ≤ max_byte_one_chunked_body ∧ max_byte_one_chunked_body < s.length := by
  have hcalls := responseCalls_success self ext ctx p dst reads hdata hp hres hopen
  rw [hcalls, chunkBodies_successCalls]
  refine ⟨fun hlarge => segments_two_le reads hread hlarge, ?_⟩
  intro s hs
  exact flushed_first_exceed reads [] (by simp) s (segments_dropLast_flushed reads s hs)

/-- C5 as amended, a worked input: a regular file of 133121 bytes goes out as at
least two segments. -/
theorem onResponse_large_file_segments_witness :
    2 ≤ (chunkBodies (responseCalls
      ⟨300, PathResolve.is_relative, PathResolve.is_relative, [], []⟩
      (posix [("/www/big.bin", content133121)])
      ⟨HandlerMethod.GET, "/big.bin", "", "/www",
        [(data_name, { found := some true, file := some "/www/big.bin" })], []⟩)).length :=
  (onResponse_large_file_segments
    ⟨300, PathResolve.is_relative, PathResolve.is_relative, [], []⟩
    (posix [("/www/big.bin", content133121)])
    ⟨HandlerMethod.GET, "/big.bin", "", "/www",
      [(data_name, { found := some true, file := some "/www/big.bin" })], []⟩
    "/www/big.bin" "/www/big.bin" (ifstreamReads content133121)
    (by decide) (by decide) (by decide) (by simp [posix, List.lookup])
    (ifstreamReads_block_le content133121)).1
    (by rw [ifstreamReads_flatten, content133121_length]; decide)

/-! ## The response phase: directories and default file names -/

/-- The loop over the default names finds nothing when none of them exists. -/
theorem scanDefaults_none (ext : Externals) (p : String) (names : List String)
    (hnone : ∀ fn ∈ names, ext.fsExists (ext.pathAppend p fn) = some false) :
    scanDefaults ext p names = some none := by
  induction names with
  | nil => rfl
  | cons n ns ih =>
    have hn := hnone n (List.mem_cons_self _ _)
    have hns := ih (fun x hx => hnone x (List.mem_cons_of_mem _ hx))
    simp [scanDefaults, hn, hns]

/-- The loop over the default names stops at the first one that exists. -/
theorem scanDefaults_first (ext : Externals) (p : String) (before : List String)
    (fn : String) (rest : List String)
    (hbefore : ∀ x ∈ before, ext.fsExists (ext.pathAppend p x) = some false)
    (hfn : ext.fsExists (ext.pathAppend p fn) = some true) :
    scanDefaults ext p (before ++ fn :: rest) = some (some (ext.pathAppend p fn)) := by
  induction before with
  | nil => simp [scanDefaults, hfn]
  | cons b bs ih =>
    have hb := hbefore b (List.mem_cons_self _ _)
    have hbs := ih (fun x hx => hbefore x (List.mem_cons_of_mem _ hx))
    simp [scanDefaults, hb, hbs]

/-- The `try` block on a path without a filename component: the outcome is that of
the loop over the default names, and `fs::exists` is not asked about the path. -/
theorem resolve_directory (self : StaticFile) (ext : Externals) (p : String)
    (hdir : ext.filename p = "" ∨ ext.filename p = ".") :
    resolve self ext p =
      match scanDefaults ext p self.default_filenames with
      | none => Resolution.fault
      | some (some f) => Resolution.resolved f
      | some none => Resolution.notFound := by
  rcases hdir with h | h <;> simp [resolve, Externals.has_filename, h]

/-- C8, the claim fails on the empty stored path: with an absolute directory root,
the entry (`/x`, empty root) and the request `GET /x`, the stored path is empty,
so it has no filename component, and the one default name does not exist under
it; `onResponse` answers Bad-Request, not Not-Found, and does not call `Pass`. -/
theorem onResponse_empty_path_is_bad_request :
    (onRequest
      ⟨300, PathResolve.is_absolute, PathResolve.is_absolute, [("/x", "")], ["index.html"]⟩
      (posix []) ⟨HandlerMethod.GET, "/x", "", "", [], []⟩).LoadData data_name =
      { found := some true, file := some "" } ∧
    (posix []).filename "" = "" ∧
    (∀ fn ∈ ["index.html"],
      (posix []).fsExists ((posix []).pathAppend "" fn) = some false) ∧
    responseCalls
      ⟨300, PathResolve.is_absolute, PathResolve.is_absolute, [("/x", "")], ["index.html"]⟩
      (posix [])
      (onRequest
        ⟨300, PathResolve.is_absolute, PathResolve.is_absolute, [("/x", "")], ["index.html"]⟩
        (posix []) ⟨HandlerMethod.GET, "/x", "", "", [], []⟩) ≠
      [Effect.RenderNofound, Effect.Pass] := by
  decide

/-- C8, as amended.  For a claimed request whose stored path is not empty and has no
filename component (its filename is empty or `.`), when none of the default
names configured, appended to the path, exists (also when there is no default
name), `onResponse` makes exactly the calls `RenderNofound` and `Pass`: no
chunked response is started and no content type or cache header is set. -/
theorem onResponse_not_found_on_unresolved_directory (self : StaticFile) (ext : Externals)
    (ctx : Context) (p : String)
    (hdata : ctx.LoadData data_name = { found := some true, file := some p })
    (hp : p ≠ "")
    (hdir : ext.filename p = "" ∨ ext.filename p = ".")
    (hnone : ∀ fn ∈ self.default_filenames,
      ext.fsExists (ext.pathAppend p fn) = some false) :
    responseCalls self ext ctx = [Effect.RenderNofound, Effect.Pass] ∧
    Effect.StartChunkedResponse ∉ responseCalls self ext ctx ∧
    (∀ ct, Effect.SetContentType ct ∉ responseCalls self ext ctx) ∧
    (∀ n, Effect.CacheControlMaxAge n ∉ responseCalls self ext ctx) := by
  have hres : resolve self ext p = Resolution.notFound := by
    rw [resolve_directory self ext p hdir, scanDefaults_none ext p _ hnone]
  have hcalls : responseCalls self ext ctx = [Effect.RenderNofound, Effect.Pass] := by
    simp [responseCalls, onResponse_claimed self ext ctx p hdata hp, hres,
      Context.RenderNofound, Context.Pass, Context.emit]
  rw [hcalls]
  simp

/-- C8 as amended, a worked input: the directory `/www/static/` without an
`index.html`. -/
theorem onResponse_not_found_on_unresolved_directory_witness :
    responseCalls
      ⟨300, PathResolve.is_relative, PathResolve.is_relative, [], ["index.html"]⟩
      (posix [("/www/static/a.css", [1])])
      ⟨HandlerMethod.GET, "/static/", "", "/www",
        [(data_name, { found := some true, file := some "/www/static/" })], []⟩ =
      [Effect.RenderNofound, Effect.Pass] :=
  (onResponse_not_found_on_unresolved_directory
    ⟨300, PathResolve.is_relative, PathResolve.is_relative, [], ["index.html"]⟩
    (posix [("/www/static/a.css", [1])])
    ⟨HandlerMethod.GET, "/static/", "", "/www",
      [(data_name, { found := some true, file := some "/www/static/" })], []⟩
    "/www/static/" (by decide) (by decide) (Or.inr (by decide)) (by decide)).1

/-- C9, the claim fails on the empty stored path: with an absolute directory root,
the entry (`/x`, empty root) and the request `GET /x`, the stored path is empty,
so it has no filename component, and the default name `index.html` exists under
it; `onResponse` answers Bad-Request and streams nothing of that file. -/
theorem onResponse_empty_path_serves_no_default :
    (onRequest
      ⟨300, PathResolve.is_absolute, PathResolve.is_absolute, [("/x", "")], ["index.html"]⟩
      (posix [("index.html", [1, 2])])
      ⟨HandlerMethod.GET, "/x", "", "", [], []⟩).LoadData data_name =
      { found := some true, file := some "" } ∧
    (posix [("index.html", [1, 2])]).filename "" = "" ∧
    (posix [("index.html", [1, 2])]).fsExists
      ((posix [("index.html", [1, 2])]).pathAppend "" "index.html") = some true ∧
    (posix [("index.html", [1, 2])]).ifstream
      ((posix [("index.html", [1, 2])]).pathAppend "" "index.html") = some [[1, 2]] ∧
    responseCalls
      ⟨300, PathResolve.is_absolute, PathResolve.is_absolute, [("/x", "")], ["index.html"]⟩
      (posix [("index.html", [1, 2])])
      (onRequest
        ⟨300, PathResolve.is_absolute, PathResolve.is_absolute, [("/x", "")], ["index.html"]⟩
        (posix [("index.html", [1, 2])])
        ⟨HandlerMethod.GET, "/x", "", "", [], []⟩) = [Effect.RenderBadRequest] ∧
    (chunkBodies (responseCalls
      ⟨300, PathResolve.is_absolute, PathResolve.is_absolute, [("/x", "")], ["index.html"]⟩
      (posix [("index.html", [1, 2])])
      (onRequest
        ⟨300, PathResolve.is_absolute, PathResolve.is_absolute, [("/x", "")], ["index.html"]⟩
        (posix [("index.html", [1, 2])])
        ⟨HandlerMethod.GET, "/x", "", "", [], []⟩))).flatten ≠ [1, 2] := by
  decide

/-- C9, as amended.  For a claimed request whose stored path `p` is not empty and has
no filename component, when `fn` is the first configured default name for which
`p / fn` exists (the names before it being reported absent), `onResponse` goes on
with the file `p / fn`: if it opens, the calls are those of the success path for
that file, the streamed bytes are the bytes read from it, and `SetContentType`
only ever gets the MIME type of the extension of `p / fn`, not of `p`; if it
does not open, the calls are `RenderInternalServerError` and `Pass`. -/
theorem onResponse_default_file_fallback (self : StaticFile) (ext : Externals)
    (ctx : Context) (p : String) (before : List String) (fn : String) (rest : List String)
    (hdata : ctx.LoadData data_name = { found := some true, file := some p })
    (hp : p ≠ "")
    (hdir : ext.filename p = "" ∨ ext.filename p = ".")
    (hnames : self.default_filenames = before ++ fn :: rest)
    (hbefore : ∀ x ∈ before, ext.fsExists (ext.pathAppend p x) = some false)
    (hfn : ext.fsExists (ext.pathAppend p fn) = some true) :
    resolve self ext p = Resolution.resolved (ext.pathAppend p fn) ∧
    (∀ reads, ext.ifstream (ext.pathAppend p fn) = some reads →
      responseCalls self ext ctx = successCalls self ext (ext.pathAppend p fn) reads ∧
      (chunkBodies (responseCalls self ext ctx)).flatten = reads.flatten ∧
      ∀ ct, Effect.SetContentType ct ∈ responseCalls self ext ctx →
        ct = ext.GetMIMEType (ext.extension (ext.pathAppend p fn))) ∧
    (ext.ifstream (ext.pathAppend p fn) = none →
      responseCalls self ext ctx = [Effect.RenderInternalServerError, Effect.Pass]) := by
  have hres : resolve self ext p = Resolution.resolved (ext.pathAppend p fn) := by
    rw [resolve_directory self ext p hdir, hnames,
      scanDefaults_first ext p before fn rest hbefore hfn]
  refine ⟨hres, ?_, ?_⟩
  · intro reads hopen
    have hcalls := responseCalls_success self ext ctx p _ reads hdata hp hres hopen
    refine ⟨hcalls, ?_, ?_⟩
    · rw [hcalls, chunkBodies_successCalls, segments_flatten]
    · intro ct hct
      rw [hcalls] at hct
      simp only [successCalls, List.mem_append, List.mem_map, List.mem_cons,
        List.mem_singleton] at hct
      by_cases hmime : (ext.GetMIMEType (ext.extension (ext.pathAppend p fn)) != "") = true
      · simp [hmime] at hct
        exact hct
      · simp [hmime] at hct
  · intro hopen
    simp [responseCalls, onResponse_claimed self ext ctx p hdata hp, hres, hopen,
      Context.RenderInternalServerError, Context.Pass, Context.emit]

/-- C9 as amended, a worked input: the directory `/www/docs/` holds `index.html`
but no `index.htm`; the request is answered with the bytes of `index.html` and
the content type of `.html`. -/
theorem onResponse_default_file_fallback_witness :
    responseCalls
      ⟨300, PathResolve.is_relative, PathResolve.is_relative, [],
        ["index.htm", "index.html", "readme.txt"]⟩
      (posix [("/www/docs/readme.txt", [7]), ("/www/docs/index.html", [1, 2])])
      ⟨HandlerMethod.GET, "/docs/", "", "/www",
        [(data_name, { found := some true, file := some "/www/docs/" })], []⟩ =
      [Effect.SetContentType "text/html", Effect.CacheControlMaxAge 300,
       Effect.StartChunkedResponse, Effect.ContinueChunkedResponse [1, 2],
       Effect.RemoveData "static-file", Effect.StopChunkedResponse, Effect.Pass] :=
  ((onResponse_default_file_fallback
    ⟨300, PathResolve.is_relative, PathResolve.is_relative, [],
      ["index.htm", "index.html", "readme.txt"]⟩
    (posix [("/www/docs/readme.txt", [7]), ("/www/docs/index.html", [1, 2])])
    ⟨HandlerMethod.GET, "/docs/", "", "/www",
      [(data_name, { found := some true, file := some "/www/docs/" })], []⟩
    "/www/docs/" ["index.htm"] "index.html" ["readme.txt"]
    (by decide) (by decide) (Or.inr (by decide)) rfl (by decide) (by decide)).2.1
    [[1, 2]] (by decide)).1

/-! ## Default file names -/

/-- The scan of `AddDefaultFileName` meets the name exactly when it is in the list. -/
theorem any_eq_name_iff (names : List String) (n : String) :
    names.any (fun fn => fn == n) = true ↔ n ∈ names := by
  simp [List.any_eq_true]

/-- C10. `AddDefaultFileName` is idempotent: applied twice with the same name it
gives what it gives applied once; a name already in the list leaves the
interceptor unchanged; a name not yet in the list is put after the names already
there, which keep their order; and on a list without repeats the name occurs
exactly once in the result. -/
theorem AddDefaultFileName_idempotent (self : StaticFile) (n : String) :
    (self.AddDefaultFileName n).AddDefaultFileName n = self.AddDefaultFileName n ∧
    (n ∈ self.default_filenames → self.AddDefaultFileName n = self) ∧
    (n ∉ self.default_filenames →
      (self.AddDefaultFileName n).default_filenames = self.default_filenames ++ [n]) ∧
    (self.default_filenames.Nodup →
      (self.AddDefaultFileName n).default_filenames.count n = 1) := by
  by_cases hmem : n ∈ self.default_filenames
  · have hany : self.default_filenames.any (fun fn => fn == n) = true :=
      (any_eq_name_iff _ n).mpr hmem
    have hsame : self.AddDefaultFileName n = self := by
      simp [StaticFile.AddDefaultFileName, hany]
    refine ⟨by rw [hsame, hsame], fun _ => hsame, fun h => absurd hmem h, ?_⟩
    intro hnodup
    rw [hsame]
    exact List.count_eq_one_of_mem hnodup hmem
  · have hany : ¬ self.default_filenames.any (fun fn => fn == n) = true :=
      fun h => hmem ((any_eq_name_iff _ n).mp h)
    have hadd : (self.AddDefaultFileName n).default_filenames =
        self.default_filenames ++ [n] := by
      simp [StaticFile.AddDefaultFileName, hany]
    have hany2 : (self.AddDefaultFileName n).default_filenames.any (fun fn => fn == n) =
        true := by
      rw [any_eq_name_iff, hadd]
      simp
    refine ⟨?_, fun h => absurd h hmem, fun _ => hadd, ?_⟩
    · simp only [StaticFile.AddDefaultFileName] at hany2 ⊢
      simp [hany] at hany2 ⊢
    · intro _
      rw [hadd, List.count_append, List.count_eq_zero_of_not_mem hmem]
      simp

/-- C10, a worked input: `index.html` is added to a list that holds it and to a
list that does not. -/
theorem AddDefaultFileName_idempotent_witness :
    (StaticFile.AddDefaultFileName
      ⟨300, PathResolve.is_relative, PathResolve.is_relative, [], ["index.htm", "index.html"]⟩
      "index.html").default_filenames = ["index.htm", "index.html"] ∧
    (StaticFile.AddDefaultFileName
      ⟨300, PathResolve.is_relative, PathResolve.is_relative, [], ["index.htm"]⟩
      "index.html").default_filenames = ["index.htm"] ++ ["index.html"] ∧
    (StaticFile.AddDefaultFileName
      ⟨300, PathResolve.is_relative, PathResolve.is_relative, [], ["index.htm"]⟩
      "index.html").default_filenames.count "index.html" = 1 :=
  ⟨congrArg StaticFile.default_filenames
      ((AddDefaultFileName_idempotent
        ⟨300, PathResolve.is_relative, PathResolve.is_relative, [],
          ["index.htm", "index.html"]⟩ "index.html").2.1 (by decide)),
    (AddDefaultFileName_idempotent
      ⟨300, PathResolve.is_relative, PathResolve.is_relative, [], ["index.htm"]⟩
      "index.html").2.2.1 (by decide),
    (AddDefaultFileName_idempotent
      ⟨300, PathResolve.is_relative, PathResolve.is_relative, [], ["index.htm"]⟩
      "index.html").2.2.2 (by decide)⟩

/-- `AddDefaultFileName` preserves the absence of repeats. -/
theorem AddDefaultFileName_nodup (self : StaticFile) (n : String)
    (hnodup : self.default_filenames.Nodup) :
    (self.AddDefaultFileName n).default_filenames.Nodup := by
  by_cases hmem : n ∈ self.default_filenames
  · have hany : self.default_filenames.any (fun fn => fn == n) = true :=
      (any_eq_name_iff _ n).mpr hmem
    simpa [StaticFile.AddDefaultFileName, hany] using hnodup
  · have hany : ¬ self.default_filenames.any (fun fn => fn == n) = true :=
      fun h => hmem ((any_eq_name_iff _ n).mp h)
    simp only [StaticFile.AddDefaultFileName, hany]
    simp only [Bool.false_eq_true, if_false]
    exact List.nodup_append.mpr ⟨hnodup, List.nodup_singleton n, by
      intro x hx hx2
      rw [List.mem_singleton] at hx2
      exact hmem (hx2 ▸ hx)⟩

/-- `AddDefaultFileNames` preserves the absence of repeats. -/
theorem AddDefaultFileNames_nodup (self : StaticFile) (names : List String)
    (hnodup : self.default_filenames.Nodup) :
    (self.AddDefaultFileNames names).default_filenames.Nodup := by
  induction names generalizing self with
  | nil => simpa [StaticFile.AddDefaultFileNames] using hnodup
  | cons n ns ih =>
    have h := ih (self.AddDefaultFileName n) (AddDefaultFileName_nodup self n hnodup)
    simpa [StaticFile.AddDefaultFileNames] using h

/-- A configuration call preserves the absence of repeats among the default names. -/
theorem configCall_nodup (c : EntryContainer) (self : StaticFile) (call : ConfigCall)
    (hnodup : self.default_filenames.Nodup) :
    (self.configCall c call).default_filenames.Nodup := by
  cases call with
  | AddEntry u d => simpa [StaticFile.configCall, StaticFile.AddEntry] using hnodup
  | AddDefaultFileName n => exact AddDefaultFileName_nodup self n hnodup
  | AddDefaultFileNames ns => exact AddDefaultFileNames_nodup self ns hnodup

/-- A sequence of configuration calls preserves the absence of repeats among the
names of the default files. -/
theorem configure_nodup (c : EntryContainer) (self : StaticFile) (calls : List ConfigCall)
    (hnodup : self.default_filenames.Nodup) :
    (self.configure c calls).default_filenames.Nodup := by
  induction calls generalizing self with
  | nil => simpa [StaticFile.configure] using hnodup
  | cons call cs ih =>
    have h := ih (self.configCall c call) (configCall_nodup c self call hnodup)
    simpa [StaticFile.configure] using h

/-- C11. No-duplicates invariant: from an interceptor whose list of default names is
empty, after any finite sequence of `AddEntry`, `AddDefaultFileName` and
`AddDefaultFileNames` calls, with any arguments (argument lists with repeats
included) and whatever the entry container, the list of default names holds no
name twice. -/
theorem configure_default_filenames_nodup (c : EntryContainer) (self : StaticFile)
    (calls : List ConfigCall)
    (hempty : self.default_filenames = []) :
    (self.configure c calls).default_filenames.Nodup ∧
    ∀ n, (self.configure c calls).default_filenames.count n ≤ 1 := by
  have h : (self.configure c calls).default_filenames.Nodup :=
    configure_nodup c self calls (by simp [hempty])
  exact ⟨h, List.nodup_iff_count_le_one.mp h⟩

/-- C11, a worked input: calls with repeated names, one of them inside an argument
list. -/
theorem configure_default_filenames_nodup_witness :
    (StaticFile.configure (orderedContainer stringLess true)
      ⟨300, PathResolve.is_relative, PathResolve.is_relative, [], []⟩
      [ConfigCall.AddDefaultFileName "index.html",
       ConfigCall.AddEntry "/s/" "static/",
       ConfigCall.AddDefaultFileNames ["index.htm", "index.html", "index.htm"],
       ConfigCall.AddDefaultFileName "index.htm"]).default_filenames =
      ["index.html", "index.htm"] ∧
    (StaticFile.configure (orderedContainer stringLess true)
      ⟨300, PathResolve.is_relative, PathResolve.is_relative, [], []⟩
      [ConfigCall.AddDefaultFileName "index.html",
       ConfigCall.AddEntry "/s/" "static/",
       ConfigCall.AddDefaultFileNames ["index.htm", "index.html", "index.htm"],
       ConfigCall.AddDefaultFileName "index.htm"]).default_filenames.Nodup :=
  ⟨by decide,
    (configure_default_filenames_nodup (orderedContainer stringLess true)
      ⟨300, PathResolve.is_relative, PathResolve.is_relative, [], []⟩
      [ConfigCall.AddDefaultFileName "index.html",
       ConfigCall.AddEntry "/s/" "static/",
       ConfigCall.AddDefaultFileNames ["index.htm", "index.html", "index.htm"],
       ConfigCall.AddDefaultFileName "index.htm"] rfl).1⟩

/-- Filtering out a name that the second filter rejects anyway changes nothing. -/
theorem filter_filter_of_not (p : String → Bool) (a : String) (hpa : p a = false)
    (l : List String) :
    (l.filter (fun m => m != a)).filter p = l.filter p := by
  rw [List.filter_filter]
  apply List.filter_congr
  intro x _
  by_cases hx : x = a
  · subst hx; simp [hpa]
  · simp [hx]

/-- Taking first occurrences commutes with filtering. -/
theorem firstOccurrences_filter (p : String → Bool) (l : List String) :
    firstOccurrences (l.filter p) = (firstOccurrences l).filter p := by
  induction l with
  | nil => rfl
  | cons a l ih =>
    by_cases hpa : p a = true
    · simp only [List.filter_cons, hpa, if_true, firstOccurrences, ih]
      rw [List.filter_filter, List.filter_filter]
      apply congrArg
      apply List.filter_congr
      intro x _
      exact Bool.and_comm _ _
    · have hpa2 : p a = false := by simpa using hpa
      simp only [List.filter_cons, hpa2, Bool.false_eq_true, if_false, firstOccurrences]
      rw [ih]
      exact (filter_filter_of_not p a hpa2 _).symm

/-- The first occurrences of a list are its elements. -/
theorem mem_firstOccurrences (l : List String) (x : String) :
    x ∈ firstOccurrences l ↔ x ∈ l := by
  induction l with
  | nil => simp [firstOccurrences]
  | cons a l ih =>
    simp only [firstOccurrences, List.mem_cons, List.mem_filter, ih]
    by_cases hx : x = a
    · simp [hx]
    · simp [hx]

/-- The first occurrences of a list hold no name twice. -/
theorem firstOccurrences_nodup (l : List String) : (firstOccurrences l).Nodup := by
  induction l with
  | nil => simp [firstOccurrences]
  | cons a l ih =>
    simp only [firstOccurrences, List.nodup_cons, List.mem_filter]
    refine ⟨?_, ih.filter _⟩
    simp

/-- The list `AddDefaultFileNames` leaves is the old list followed by `addedNamesSpec`. -/
theorem AddDefaultFileNames_default_filenames (self : StaticFile) (names : List String) :
    (self.AddDefaultFileNames names).default_filenames =
      self.default_filenames ++ addedNamesSpec self.default_filenames names := by
  induction names generalizing self with
  | nil => simp [StaticFile.AddDefaultFileNames, addedNamesSpec, firstOccurrences]
  | cons n ns ih =>
    have hstep : self.AddDefaultFileNames (n :: ns) =
        (self.AddDefaultFileName n).AddDefaultFileNames ns := rfl
    rw [hstep, ih]
    by_cases hmem : n ∈ self.default_filenames
    · have hany : self.default_filenames.any (fun fn => fn == n) = true :=
        (any_eq_name_iff _ n).mpr hmem
      have hsame : self.AddDefaultFileName n = self := by
        simp [StaticFile.AddDefaultFileName, hany]
      rw [hsame]
      simp [addedNamesSpec, List.filter_cons, hmem]
    · have hany : ¬ self.default_filenames.any (fun fn => fn == n) = true :=
        fun h => hmem ((any_eq_name_iff _ n).mp h)
      have hadd : (self.AddDefaultFileName n).default_filenames =
          self.default_filenames ++ [n] := by
        simp [StaticFile.AddDefaultFileName, hany]
      rw [hadd]
      simp only [addedNamesSpec, List.filter_cons]
      have hcont : (!self.default_filenames.contains n) = true := by simpa using hmem
      simp only [hcont, if_true, firstOccurrences, ← firstOccurrences_filter,
        List.filter_filter, List.append_assoc, List.singleton_append]
      congr 3
      apply List.filter_congr
      intro x _
      by_cases hx : x = n
      · subst hx; simp
      · simp [hx, Bool.and_comm]

/-- C12. `AddDefaultFileNames` is `AddDefaultFileName` applied to each element of the
argument from left to right, and the list it leaves is the old list followed by
the names of the argument that were not in the old list (`addedNamesSpec`): each
of them once, in the order of their first occurrence in the argument; when the
old list holds no name twice, neither does the new one. -/
theorem AddDefaultFileNames_refines (self : StaticFile) (names : List String) :
    self.AddDefaultFileNames names = names.foldl StaticFile.AddDefaultFileName self ∧
    (self.AddDefaultFileNames names).default_filenames =
      self.default_filenames ++ addedNamesSpec self.default_filenames names ∧
    (∀ x, x ∈ addedNamesSpec self.default_filenames names ↔
      x ∈ names ∧ x ∉ self.default_filenames) ∧
    (addedNamesSpec self.default_filenames names).Nodup ∧
    (self.default_filenames.Nodup →
      (self.AddDefaultFileNames names).default_filenames.Nodup) := by
  refine ⟨rfl, AddDefaultFileNames_default_filenames self names, ?_,
    firstOccurrences_nodup _, AddDefaultFileNames_nodup self names⟩
  intro x
  simp [addedNamesSpec, mem_firstOccurrences, List.mem_filter]

/-- C12, a worked input: the old list `index.html`, and an argument that repeats a
new name and names the old one. -/
theorem AddDefaultFileNames_refines_witness :
    (StaticFile.AddDefaultFileNames
      ⟨300, PathResolve.is_relative, PathResolve.is_relative, [], ["index.html"]⟩
      ["b.html", "index.html", "a.html", "b.html"]).default_filenames =
      ["index.html", "b.html", "a.html"] ∧
    (StaticFile.AddDefaultFileNames
      ⟨300, PathResolve.is_relative, PathResolve.is_relative, [], ["index.html"]⟩
      ["b.html", "index.html", "a.html", "b.html"]).default_filenames.Nodup :=
  ⟨(AddDefaultFileNames_refines
      ⟨300, PathResolve.is_relative, PathResolve.is_relative, [], ["index.html"]⟩
      ["b.html", "index.html", "a.html", "b.html"]).2.1,
    (AddDefaultFileNames_refines
      ⟨300, PathResolve.is_relative, PathResolve.is_relative, [], ["index.html"]⟩
      ["b.html", "index.html", "a.html", "b.html"]).2.2.2.2 (by decide)⟩

/-- C13, the claim fails: after `/` and `/img/` have been added, `AddEntry` with
the url prefix `/i` does not leave the new entry last in scan order, in a
container ordered by `std::less` or by `std::greater`, map or multimap; and in
a `std::map` a second `AddEntry` with the url prefix `/` leaves the two entries
as they are, so the number of entries does not grow. -/
theorem AddEntry_not_always_last :
    ((StaticFile.AddEntries ⟨300, PathResolve.is_absolute, PathResolve.is_absolute, [], []⟩
        (orderedContainer stringLess true)
        [("/", "/two"), ("/img/", "/three")]).AddEntry
      (orderedContainer stringLess true) "/i" "/one").root_entries =
      [("/", "/two"), ("/i", "/one"), ("/img/", "/three")] ∧
    ((StaticFile.AddEntries ⟨300, PathResolve.is_absolute, PathResolve.is_absolute, [], []⟩
        (orderedContainer stringLess false)
        [("/", "/two"), ("/img/", "/three")]).AddEntry
      (orderedContainer stringLess false) "/i" "/one").root_entries.getLast? ≠
      some ("/i", "/one") ∧
    ((StaticFile.AddEntries ⟨300, PathResolve.is_absolute, PathResolve.is_absolute, [], []⟩
        (orderedContainer stringGreater true)
        [("/", "/two"), ("/img/", "/three")]).AddEntry
      (orderedContainer stringGreater true) "/i" "/one").root_entries =
      [("/img/", "/three"), ("/i", "/one"), ("/", "/two")] ∧
    ((StaticFile.AddEntries ⟨300, PathResolve.is_absolute, PathResolve.is_absolute, [], []⟩
        (orderedContainer stringGreater false)
        [("/", "/two"), ("/img/", "/three")]).AddEntry
      (orderedContainer stringGreater false) "/i" "/one").root_entries.getLast? ≠
      some ("/i", "/one") ∧
    ((StaticFile.AddEntries ⟨300, PathResolve.is_absolute, PathResolve.is_absolute, [], []⟩
        (orderedContainer stringLess true)
        [("/", "/two"), ("/img/", "/three")]).AddEntry
      (orderedContainer stringLess true) "/" "/other").root_entries =
      [("/", "/two"), ("/img/", "/three")] := by
  decide

/-- C13, as amended.  `AddEntry` inserts by key: in an ordered associative container,
for every interceptor and every pair, the earlier entries all stay, in their
relative order; unless the container has unique keys and the url prefix is
already configured, there is one entry more, placed after the entries whose key
is not greater and before the others (last in scan order only when no key is
greater); a container with unique keys leaves everything as it was when the url
prefix is already configured; and entries in key order stay in key order (for
an asymmetric, transitive key comparison). -/
theorem AddEntry_inserts_by_key (less : String → String → Bool) (unique_keys : Bool)
    (self : StaticFile) (url_root dir_root : String) :
    List.Sublist self.root_entries
      (self.AddEntry (orderedContainer less unique_keys) url_root dir_root).root_entries ∧
    ((unique_keys && hasKey less url_root self.root_entries) = false →
      (self.AddEntry (orderedContainer less unique_keys) url_root dir_root).root_entries =
        self.root_entries.takeWhile (fun x => !less url_root x.1) ++
          (url_root, dir_root) :: self.root_entries.dropWhile (fun x => !less url_root x.1) ∧
      (self.AddEntry (orderedContainer less unique_keys) url_root dir_root).root_entries.length =
        self.root_entries.length + 1) ∧
    ((unique_keys && hasKey less url_root self.root_entries) = true →
      self.AddEntry (orderedContainer less unique_keys) url_root dir_root = self) ∧
    ((∀ a b, less a b = true → less b a = false) →
      (∀ a b d, less a b = true → less b d = true → less a d = true) →
      keySorted less self.root_entries →
      keySorted less
        (self.AddEntry (orderedContainer less unique_keys) url_root dir_root).root_entries) := by
  refine ⟨?_, ?_, ?_, ?_⟩
  · simp only [StaticFile.AddEntry, orderedContainer, insertByKey]
    split_ifs
    · exact List.Sublist.refl _
    · exact upperInsert_sublist less (url_root, dir_root) self.root_entries
  · intro hins
    simp only [StaticFile.AddEntry, orderedContainer, insertByKey, hins]
    exact ⟨upperInsert_eq less (url_root, dir_root) self.root_entries,
      length_upperInsert less (url_root, dir_root) self.root_entries⟩
  · intro hkeep
    simp [StaticFile.AddEntry, orderedContainer, insertByKey, hkeep]
  · intro hasymm htrans hsorted
    simpa [StaticFile.AddEntry, orderedContainer] using
      insertByKey_keySorted less unique_keys hasymm htrans (url_root, dir_root) _ hsorted

/-- C13 as amended, a worked input: `/i` is added to a `std::multimap` ordered by
`std::less` that holds `/` and `/img/`; it goes between the two. -/
theorem AddEntry_inserts_by_key_witness :
    (StaticFile.AddEntry
      ⟨300, PathResolve.is_absolute, PathResolve.is_absolute,
        [("/", "/two"), ("/img/", "/three")], []⟩
      (orderedContainer stringLess false) "/i" "/one").root_entries =
      [("/", "/two"), ("/i", "/one"), ("/img/", "/three")] ∧
    keySorted stringLess
      (StaticFile.AddEntry
        ⟨300, PathResolve.is_absolute, PathResolve.is_absolute,
          [("/", "/two"), ("/img/", "/three")], []⟩
        (orderedContainer stringLess false) "/i" "/one").root_entries :=
  ⟨((AddEntry_inserts_by_key stringLess false
      ⟨300, PathResolve.is_absolute, PathResolve.is_absolute,
        [("/", "/two"), ("/img/", "/three")], []⟩ "/i" "/one").2.1 (by decide)).1,
    (AddEntry_inserts_by_key stringLess false
      ⟨300, PathResolve.is_absolute, PathResolve.is_absolute,
        [("/", "/two"), ("/img/", "/three")], []⟩ "/i" "/one").2.2.2
      (fun a b h => charsLess_asymm a.data b.data h)
      (fun a b d h1 h2 => charsLess_trans a.data b.data d.data h1 h2)
      (by simp [keySorted, stringLess]; decide)⟩

/-! ## The per-request state -/

/-- The calls of `onRequest`, from the outcome of its loop. -/
theorem requestCalls_eq (self : StaticFile) (ext : Externals) (ctx : Context) :
    requestCalls self ext ctx =
      if ctx.method ≠ HandlerMethod.GET then [Effect.Pass]
      else
        match scanEntries self ext ctx self.root_entries with
        | some f =>
          [Effect.SaveData data_name { found := some true, file := some f }, Effect.Stop]
        | none => [Effect.Pass] := by
  unfold requestCalls onRequest
  by_cases hm : ctx.method ≠ HandlerMethod.GET
  · simp [hm, Context.Pass, Context.emit]
  · simp only [hm, if_false]
    cases hscan : scanEntries self ext ctx self.root_entries with
    | none => simp [Context.Pass, Context.emit]
    | some f => simp [Context.SaveData, Context.Stop, Context.emit]

/-- The per-request data after `onRequest`, from the outcome of its loop. -/
theorem onRequest_data (self : StaticFile) (ext : Externals) (ctx : Context) :
    (onRequest self ext ctx).data =
      if ctx.method ≠ HandlerMethod.GET then ctx.data
      else
        match scanEntries self ext ctx self.root_entries with
        | some f =>
          (data_name, { found := some true, file := some f }) ::
            ctx.data.filter (fun kv => kv.1 != data_name)
        | none => ctx.data := by
  unfold onRequest
  by_cases hm : ctx.method ≠ HandlerMethod.GET
  · simp [hm, Context.Pass, Context.emit]
  · simp only [hm, if_false]
    cases hscan : scanEntries self ext ctx self.root_entries with
    | none => simp [Context.Pass, Context.emit]
    | some f => simp [Context.SaveData, Context.Stop, Context.emit]

/-- The loop of `onRequest` finds a path exactly when some entry matches. -/
theorem scanEntries_isSome_iff (self : StaticFile) (ext : Externals) (ctx : Context)
    (es : List (String × String)) :
    (scanEntries self ext ctx es).isSome = true ↔
      ∃ e ∈ es, iStartsWith ctx.url (self.url_starts ctx e) = true := by
  induction es with
  | nil => simp [scanEntries]
  | cons e es ih =>
    by_cases he : iStartsWith ctx.url (self.url_starts ctx e) = true
    · simp [scanEntries, he]
    · simp [scanEntries, he, ih]

/-- The five ways `onResponse` can end, as contexts. -/
theorem onResponse_cases (self : StaticFile) (ext : Externals) (ctx : Context) :
    onResponse self ext ctx = ctx.Pass ∨
    onResponse self ext ctx = ctx.RenderBadRequest ∨
    onResponse self ext ctx = ctx.RenderNofound.Pass ∨
    onResponse self ext ctx = ctx.RenderInternalServerError.Pass ∨
    ∃ dst reads, ext.ifstream dst = some reads ∧
      onResponse self ext ctx = sendFile self ext ctx dst reads := by
  unfold onResponse
  simp only []
  split_ifs
  · exact Or.inl rfl
  · exact Or.inl rfl
  · exact Or.inr (Or.inl rfl)
  · split
    · exact Or.inr (Or.inr (Or.inr (Or.inl rfl)))
    · exact Or.inr (Or.inr (Or.inl rfl))
    · rename_i dst _
      cases hopen : ext.ifstream dst with
      | none => exact Or.inr (Or.inr (Or.inr (Or.inl rfl)))
      | some reads => exact Or.inr (Or.inr (Or.inr (Or.inr ⟨dst, reads, hopen, rfl⟩)))

/-- The per-request data after `onResponse`: untouched unless the file was opened. -/
theorem onResponse_data_cases (self : StaticFile) (ext : Externals) (ctx : Context) :
    ((responseCalls self ext ctx = [Effect.Pass] ∨
      responseCalls self ext ctx = [Effect.RenderBadRequest] ∨
      responseCalls self ext ctx = [Effect.RenderNofound, Effect.Pass] ∨
      responseCalls self ext ctx = [Effect.RenderInternalServerError, Effect.Pass]) ∧
      (onResponse self ext ctx).data = ctx.data) ∨
    ∃ dst reads, ext.ifstream dst = some reads ∧
      responseCalls self ext ctx = successCalls self ext dst reads ∧
      (onResponse self ext ctx).data = ctx.data.filter (fun kv => kv.1 != data_name) := by
  rcases onResponse_cases self ext ctx with h | h | h | h | ⟨dst, reads, hopen, h⟩
  · left
    simp [responseCalls, h, Context.Pass, Context.emit]
  · left
    simp [responseCalls, h, Context.RenderBadRequest, Context.emit]
  · left
    simp [responseCalls, h, Context.RenderNofound, Context.Pass, Context.emit]
  · left
    simp [responseCalls, h, Context.RenderInternalServerError, Context.Pass, Context.emit]
  · right
    exact ⟨dst, reads, hopen, by simp [responseCalls, h, sendFile_eq], by
      simp [h, sendFile_eq]⟩

/-- The calls of the success path include `RemoveData` and `StopChunkedResponse`. -/
theorem successCalls_mem (self : StaticFile) (ext : Externals) (dst : String)
    (reads : List (List Byte)) :
    Effect.RemoveData data_name ∈ successCalls self ext dst reads ∧
    Effect.StopChunkedResponse ∈ successCalls self ext dst reads ∧
    Effect.StartChunkedResponse ∈ successCalls self ext dst reads := by
  simp [successCalls]

/-- C14. Unclaimed requests are untouched: a GET request whose URL matches the
effective prefix of no entry makes `onRequest` call `Pass` and nothing else, and
leaves the per-request data as it was; a context that holds no data, or empty
data, under `static-file` makes `onResponse` call `Pass` and nothing else (no
status is rendered, no header set, no chunked-response call made, no data
removed), and leaves the per-request data as it was. -/
theorem unclaimed_request_untouched (self : StaticFile) (ext : Externals) (ctx : Context) :
    (ctx.method = HandlerMethod.GET →
      (∀ e ∈ self.root_entries, iStartsWith ctx.url (self.url_starts ctx e) = false) →
      requestCalls self ext ctx = [Effect.Pass] ∧
      (onRequest self ext ctx).data = ctx.data) ∧
    ((ctx.LoadData data_name).empty = true →
      responseCalls self ext ctx = [Effect.Pass] ∧
      (onResponse self ext ctx).data = ctx.data) := by
  refine ⟨?_, ?_⟩
  · intro hget hnone
    have hscan := scanEntries_none self ext ctx self.root_entries hnone
    refine ⟨?_, ?_⟩
    · rw [requestCalls_eq]
      simp [hget, hscan]
    · rw [onRequest_data]
      simp [hget, hscan]
  · intro hempty
    have hrun : onResponse self ext ctx = ctx.Pass := by
      simp [onResponse, hempty]
    refine ⟨?_, ?_⟩
    · simp [responseCalls, hrun, Context.Pass, Context.emit]
    · simp [hrun, Context.Pass, Context.emit]

/-- C14, a worked input: a GET request for `/api/users` when the only entry is
`/s/`, and the response phase on the context the request phase left. -/
theorem unclaimed_request_untouched_witness :
    requestCalls
      ⟨300, PathResolve.is_relative, PathResolve.is_relative, [("/s/", "static/")], []⟩
      (posix [("/www/static/a.css", [1])])
      ⟨HandlerMethod.GET, "/api/users", "", "/www/", [("session", Json.null)], []⟩ =
      [Effect.Pass] ∧
    responseCalls
      ⟨300, PathResolve.is_relative, PathResolve.is_relative, [("/s/", "static/")], []⟩
      (posix [("/www/static/a.css", [1])])
      ⟨HandlerMethod.GET, "/api/users", "", "/www/", [("session", Json.null)], []⟩ =
      [Effect.Pass] :=
  ⟨((unclaimed_request_untouched
      ⟨300, PathResolve.is_relative, PathResolve.is_relative, [("/s/", "static/")], []⟩
      (posix [("/www/static/a.css", [1])])
      ⟨HandlerMethod.GET, "/api/users", "", "/www/", [("session", Json.null)], []⟩).1
      rfl (by decide)).1,
    ((unclaimed_request_untouched
      ⟨300, PathResolve.is_relative, PathResolve.is_relative, [("/s/", "static/")], []⟩
      (posix [("/www/static/a.css", [1])])
      ⟨HandlerMethod.GET, "/api/users", "", "/www/", [("session", Json.null)], []⟩).2
      (by decide)).1⟩

/-- C15. Lifecycle of the per-request state: `onRequest` calls `SaveData` on
`static-file` exactly when the method is GET and some entry matches, and leaves
the data as it was otherwise; `onResponse` calls `RemoveData` on `static-file`
exactly when it reaches the end of the success path (the file was opened, the
calls are those of the success path, ending with `StopChunkedResponse` and
`Pass`), and then the key holds nothing; in every other run, which makes one of
the four early-exit call lists, the stored data is left exactly as it was. -/
theorem state_lifecycle (self : StaticFile) (ext : Externals) (ctx : Context) :
    ((∃ j, Effect.SaveData data_name j ∈ requestCalls self ext ctx) ↔
      (ctx.method = HandlerMethod.GET ∧
        ∃ e ∈ self.root_entries, iStartsWith ctx.url (self.url_starts ctx e) = true)) ∧
    ((¬ ∃ j, Effect.SaveData data_name j ∈ requestCalls self ext ctx) →
      (onRequest self ext ctx).data = ctx.data) ∧
    (Effect.RemoveData data_name ∈ responseCalls self ext ctx ↔
      ∃ dst reads, ext.ifstream dst = some reads ∧
        responseCalls self ext ctx = successCalls self ext dst reads) ∧
    (Effect.RemoveData data_name ∈ responseCalls self ext ctx →
      Effect.StopChunkedResponse ∈ responseCalls self ext ctx ∧
      (onResponse self ext ctx).data = ctx.data.filter (fun kv => kv.1 != data_name) ∧
      (onResponse self ext ctx).LoadData data_name = Json.null) ∧
    (Effect.RemoveData data_name ∉ responseCalls self ext ctx →
      (responseCalls self ext ctx = [Effect.Pass] ∨
        responseCalls self ext ctx = [Effect.RenderBadRequest] ∨
        responseCalls self ext ctx = [Effect.RenderNofound, Effect.Pass] ∨
        responseCalls self ext ctx = [Effect.RenderInternalServerError, Effect.Pass]) ∧
      (onResponse self ext ctx).data = ctx.data) := by
  have hreq := requestCalls_eq self ext ctx
  have hdat := onRequest_data self ext ctx
  have hiff := scanEntries_isSome_iff self ext ctx self.root_entries
  have hsave : (∃ j, Effect.SaveData data_name j ∈ requestCalls self ext ctx) ↔
      (ctx.method = HandlerMethod.GET ∧
        ∃ e ∈ self.root_entries, iStartsWith ctx.url (self.url_starts ctx e) = true) := by
    rw [← hiff, hreq]
    by_cases hm : ctx.method = HandlerMethod.GET
    · cases hscan : scanEntries self ext ctx self.root_entries with
      | none => simp [hm]
      | some f => simp [hm]
    · simp [hm]
  have hrem : ∀ dst reads, Effect.RemoveData data_name ∈ successCalls self ext dst reads :=
    fun dst reads => (successCalls_mem self ext dst reads).1
  refine ⟨hsave, ?_, ?_, ?_, ?_⟩
  · intro hno
    rw [hsave, ← hiff] at hno
    rw [hdat]
    by_cases hm : ctx.method = HandlerMethod.GET
    · cases hscan : scanEntries self ext ctx self.root_entries with
      | none => simp [hm]
      | some f => simp [hm, hscan] at hno
    · simp [hm]
  · constructor
    · intro hmem
      rcases onResponse_data_cases self ext ctx with
        ⟨h | h | h | h, _⟩ | ⟨dst, reads, h1, h2, _⟩
      · simp [h] at hmem
      · simp [h] at hmem
      · simp [h] at hmem
      · simp [h] at hmem
      · exact ⟨dst, reads, h1, h2⟩
    · rintro ⟨dst, reads, _, h⟩
      rw [h]
      exact hrem dst reads
  · intro hmem
    rcases onResponse_data_cases self ext ctx with
      ⟨h | h | h | h, _⟩ | ⟨dst, reads, _, h2, h3⟩
    · simp [h] at hmem
    · simp [h] at hmem
    · simp [h] at hmem
    · simp [h] at hmem
    · refine ⟨?_, h3, ?_⟩
      · rw [h2]
        exact (successCalls_mem self ext dst reads).2.1
      · simp only [Context.LoadData, h3]
        have hlook : (ctx.data.filter (fun kv => kv.1 != data_name)).lookup data_name =
            none := by
          rw [List.lookup_eq_none_iff]
          intro kv hkv
          simp only [List.mem_filter] at hkv
          have hne : kv.1 ≠ data_name := by simpa only [bne_iff_ne, ne_eq] using hkv.2
          simp only [bne_iff_ne, ne_eq]
          exact fun h => hne h.symm
        rw [hlook]
  · intro hnot
    rcases onResponse_data_cases self ext ctx with ⟨h, hd⟩ | ⟨dst, reads, _, h2, _⟩
    · exact ⟨h, hd⟩
    · exact absurd (h2 ▸ hrem dst reads) hnot

/-- C15, a worked input: `GET /s/a.txt` matches the entry `/s/`, so `onRequest`
saves the state; `onResponse` then streams `/www/static/a.txt` and removes it. -/
theorem state_lifecycle_witness :
    (∃ j, Effect.SaveData data_name j ∈ requestCalls
      ⟨300, PathResolve.is_relative, PathResolve.is_relative, [("/s/", "static/")], []⟩
      (posix [("/www/static/a.txt", [1, 2, 3])])
      ⟨HandlerMethod.GET, "/s/a.txt", "", "/www/", [], []⟩) ∧
    (onResponse
      ⟨300, PathResolve.is_relative, PathResolve.is_relative, [("/s/", "static/")], []⟩
      (posix [("/www/static/a.txt", [1, 2, 3])])
      (onRequest
        ⟨300, PathResolve.is_relative, PathResolve.is_relative, [("/s/", "static/")], []⟩
        (posix [("/www/static/a.txt", [1, 2, 3])])
        ⟨HandlerMethod.GET, "/s/a.txt", "", "/www/", [], []⟩)).LoadData data_name =
      Json.null :=
  ⟨(state_lifecycle
      ⟨300, PathResolve.is_relative, PathResolve.is_relative, [("/s/", "static/")], []⟩
      (posix [("/www/static/a.txt", [1, 2, 3])])
      ⟨HandlerMethod.GET, "/s/a.txt", "", "/www/", [], []⟩).1.mpr
      ⟨rfl, ("/s/", "static/"), by decide, by decide⟩,
    ((state_lifecycle
      ⟨300, PathResolve.is_relative, PathResolve.is_relative, [("/s/", "static/")], []⟩
      (posix [("/www/static/a.txt", [1, 2, 3])])
      (onRequest
        ⟨300, PathResolve.is_relative, PathResolve.is_relative, [("/s/", "static/")], []⟩
        (posix [("/www/static/a.txt", [1, 2, 3])])
        ⟨HandlerMethod.GET, "/s/a.txt", "", "/www/", [], []⟩)).2.2.2.1 (by decide)).2.2⟩

/-! ## The response phase: headers and order of the calls -/

/-- C16. Unknown extension: when the file of a claimed request is resolved and opened
and the MIME lookup of its extension is empty, `onResponse` does not call
`SetContentType` and still sets the cache max-age to the configured value, starts
the chunked response, sends the bodies, removes the data, ends the chunked
response and calls `Pass`; the bodies are all the bytes read; when the lookup is
not empty, `SetContentType` is called exactly once, with the lookup result. -/
theorem onResponse_unknown_extension (self : StaticFile) (ext : Externals) (ctx : Context)
    (p dst : String) (reads : List (List Byte))
    (hdata : ctx.LoadData data_name = { found := some true, file := some p })
    (hp : p ≠ "")
    (hres : resolve self ext p = Resolution.resolved dst)
    (hopen : ext.ifstream dst = some reads) :
    (ext.GetMIMEType (ext.extension dst) = "" →
      responseCalls self ext ctx =
        [Effect.CacheControlMaxAge self.cache_max_age, Effect.StartChunkedResponse] ++
        (chunkBodies (responseCalls self ext ctx)).map Effect.ContinueChunkedResponse ++
        [Effect.RemoveData data_name, Effect.StopChunkedResponse, Effect.Pass] ∧
      ∀ ct, Effect.SetContentType ct ∉ responseCalls self ext ctx) ∧
    (chunkBodies (responseCalls self ext ctx)).flatten = reads.flatten ∧
    (ext.GetMIMEType (ext.extension dst) ≠ "" →
      (responseCalls self ext ctx).count
        (Effect.SetContentType (ext.GetMIMEType (ext.extension dst))) = 1 ∧
      ∀ ct, Effect.SetContentType ct ∈ responseCalls self ext ctx →
        ct = ext.GetMIMEType (ext.extension dst)) := by
  have hcalls := responseCalls_success self ext ctx p dst reads hdata hp hres hopen
  have hbodies := chunkBodies_successCalls self ext dst reads
  rw [hcalls, hbodies]
  refine ⟨?_, segments_flatten reads, ?_⟩
  · intro hmime
    simp [successCalls, hmime]
  · intro hmime
    have hcount : ∀ l : List (List Byte),
        (l.map Effect.ContinueChunkedResponse).count
          (Effect.SetContentType (ext.GetMIMEType (ext.extension dst))) = 0 := by
      intro l
      rw [List.count_eq_zero]
      simp
    refine ⟨?_, ?_⟩
    · simp [successCalls, hmime, List.count_cons, hcount]
    · intro ct hct
      simp [successCalls, hmime] at hct
      exact hct

/-- C16, a worked input: a file with the extension `.bin`, which the table does not
know. -/
theorem onResponse_unknown_extension_witness :
    responseCalls
      ⟨300, PathResolve.is_relative, PathResolve.is_relative, [], []⟩
      (posix [("/www/a.bin", [1, 2, 3])])
      ⟨HandlerMethod.GET, "/a.bin", "", "/www",
        [(data_name, { found := some true, file := some "/www/a.bin" })], []⟩ =
      [Effect.CacheControlMaxAge 300, Effect.StartChunkedResponse,
       Effect.ContinueChunkedResponse [1, 2, 3], Effect.RemoveData "static-file",
       Effect.StopChunkedResponse, Effect.Pass] :=
  ((onResponse_unknown_extension
    ⟨300, PathResolve.is_relative, PathResolve.is_relative, [], []⟩
    (posix [("/www/a.bin", [1, 2, 3])])
    ⟨HandlerMethod.GET, "/a.bin", "", "/www",
      [(data_name, { found := some true, file := some "/www/a.bin" })], []⟩
    "/www/a.bin" "/www/a.bin" [[1, 2, 3]]
    (by decide) (by decide) (by decide) (by decide)).1 (by decide)).1

/-- C18. Order of the calls on the success path: when the file of a claimed request
is resolved and opened, the calls of `onResponse` are, in this order, at most one
`SetContentType`, one `CacheControlMaxAge` with the configured max-age, one
`StartChunkedResponse`, the `ContinueChunkedResponse` calls (none or more), one
`RemoveData` of `static-file`, one `StopChunkedResponse` and one `Pass`; so no
`ContinueChunkedResponse` comes before `StartChunkedResponse` or after
`StopChunkedResponse`. -/
theorem onResponse_success_call_order (self : StaticFile) (ext : Externals) (ctx : Context)
    (p dst : String) (reads : List (List Byte))
    (hdata : ctx.LoadData data_name = { found := some true, file := some p })
    (hp : p ≠ "")
    (hres : resolve self ext p = Resolution.resolved dst)
    (hopen : ext.ifstream dst = some reads) :
    ∃ content_type : List Effect,
      content_type.length ≤ 1 ∧
      (∀ e ∈ content_type, ∃ ct, e = Effect.SetContentType ct) ∧
      responseCalls self ext ctx =
        content_type ++
        [Effect.CacheControlMaxAge self.cache_max_age, Effect.StartChunkedResponse] ++
        (chunkBodies (responseCalls self ext ctx)).map Effect.ContinueChunkedResponse ++
        [Effect.RemoveData data_name, Effect.StopChunkedResponse, Effect.Pass] := by
  have hcalls := responseCalls_success self ext ctx p dst reads hdata hp hres hopen
  have hbodies := chunkBodies_successCalls self ext dst reads
  rw [hcalls, hbodies]
  by_cases hmime : ext.GetMIMEType (ext.extension dst) = ""
  · exact ⟨[], by simp, by simp, by simp [successCalls, hmime]⟩
  · exact ⟨[Effect.SetContentType (ext.GetMIMEType (ext.extension dst))], by simp,
      by simp, by simp [successCalls, hmime]⟩

/-- C18, a worked input: a file of three bytes with a known extension. -/
theorem onResponse_success_call_order_witness :
    ∃ content_type : List Effect,
      content_type.length ≤ 1 ∧
      (∀ e ∈ content_type, ∃ ct, e = Effect.SetContentType ct) ∧
      responseCalls
        ⟨300, PathResolve.is_relative, PathResolve.is_relative, [], []⟩
        (posix [("/www/a.txt", [1, 2, 3])])
        ⟨HandlerMethod.GET, "/a.txt", "", "/www",
          [(data_name, { found := some true, file := some "/www/a.txt" })], []⟩ =
        content_type ++
        [Effect.CacheControlMaxAge 300, Effect.StartChunkedResponse] ++
        (chunkBodies (responseCalls
          ⟨300, PathResolve.is_relative, PathResolve.is_relative, [], []⟩
          (posix [("/www/a.txt", [1, 2, 3])])
          ⟨HandlerMethod.GET, "/a.txt", "", "/www",
            [(data_name, { found := some true, file := some "/www/a.txt" })], []⟩)).map
          Effect.ContinueChunkedResponse ++
        [Effect.RemoveData data_name, Effect.StopChunkedResponse, Effect.Pass] :=
  onResponse_success_call_order
    ⟨300, PathResolve.is_relative, PathResolve.is_relative, [], []⟩
    (posix [("/www/a.txt", [1, 2, 3])])
    ⟨HandlerMethod.GET, "/a.txt", "", "/www",
      [(data_name, { found := some true, file := some "/www/a.txt" })], []⟩
    "/www/a.txt" "/www/a.txt" [[1, 2, 3]]
    (by decide) (by decide) (by decide) (by decide)

/-! ## The response phase: the chunk buffer -/

/-- The loop over a concatenation of reads is the loop over the second part, from
the context and buffer the loop over the first part leaves. -/
theorem readLoop_append (rs rest : List (List Byte)) (ctx : Context) (body : List Byte) :
    readLoop (rs ++ rest) ctx body =
      readLoop rest (readLoop rs ctx body).1 (readLoop rs ctx body).2 := by
  induction rs generalizing ctx body with
  | nil => rfl
  | cons r rs ih =>
    simp only [List.cons_append, readLoop]
    split_ifs <;> exact ih _ _

/-- The bodies flushed by the loop, read off the trace. -/
theorem chunkBodies_readLoop (reads : List (List Byte)) (ctx : Context) (body : List Byte) :
    chunkBodies ((readLoop reads ctx body).1.trace.drop ctx.trace.length) =
      flushed reads body := by
  simp [readLoop_eq, chunkBodies_map]

/-- C19. Bounded chunk buffer: with reads of at most 2048 bytes each, whatever the
content, `a_chunk_body` holds at most 131072 bytes after each turn of the loop
and at most 131072 + 2048 = 133120 bytes after each append; every body flushed
inside the loop has more than 131072 and at most 133120 bytes; and the body
flushed after the loop, which is the buffer the loop leaves when that is not
empty, has at least 1 and at most 131072 bytes. -/
theorem readLoop_buffer_bounded (self : StaticFile) (ext : Externals) (ctx : Context)
    (dst : String) (reads : List (List Byte))
    (hread : ∀ r ∈ reads, r.length ≤ 2048) :
    (∀ rs rest, reads = rs ++ rest →
      readLoop reads ctx [] = readLoop rest (readLoop rs ctx []).1 (readLoop rs ctx []).2 ∧
      (readLoop rs ctx []).2.length ≤ 131072) ∧
    (∀ rs r rest, reads = rs ++ r :: rest →
      ((readLoop rs ctx []).2 ++ r).length ≤ 133120) ∧
    (∀ s ∈ chunkBodies ((readLoop reads ctx []).1.trace.drop ctx.trace.length),
      131072 < s.length ∧ s.length ≤ 133120) ∧
    chunkBodies ((sendFile self ext ctx dst reads).trace.drop ctx.trace.length) =
      chunkBodies ((readLoop reads ctx []).1.trace.drop ctx.trace.length) ++
        (if (readLoop reads ctx []).2 ≠ [] then [(readLoop reads ctx []).2] else []) ∧
    ((readLoop reads ctx []).2 ≠ [] →
      1 ≤ (readLoop reads ctx []).2.length ∧ (readLoop reads ctx []).2.length ≤ 131072) := by
  have hread2 : ∀ r ∈ reads, r.length ≤ max_byte_read_one_time := by
    intro r hr
    simpa [max_byte_read_one_time] using hread r hr
  have hpre : ∀ rs rest, reads = rs ++ rest → (pending rs []).length ≤ 131072 := by
    intro rs rest hsplit
    have h := (flushed_pending_bounded rs [] (by simp)
      (fun r hr => hread2 r (by rw [hsplit]; exact List.mem_append_left _ hr))).2
    simpa [max_byte_one_chunked_body] using h
  have hall := flushed_pending_bounded reads [] (by simp) hread2
  refine ⟨?_, ?_, ?_, ?_, ?_⟩
  · intro rs rest hsplit
    refine ⟨?_, ?_⟩
    · rw [hsplit]
      exact readLoop_append rs rest ctx []
    · simpa [readLoop_eq] using hpre rs rest hsplit
  · intro rs r rest hsplit
    have h1 := hpre rs (r :: rest) hsplit
    have h2 := hread r (by rw [hsplit]; simp)
    simp only [readLoop_eq, List.length_append]
    omega
  · intro s hs
    rw [chunkBodies_readLoop] at hs
    have hlow := flushed_long reads [] s hs
    have hhigh := hall.1 s hs
    simp only [max_byte_one_chunked_body, max_byte_read_one_time] at hlow hhigh
    omega
  · rw [chunkBodies_readLoop, sendFile_eq]
    simp only [List.drop_left, chunkBodies_successCalls, segments, readLoop_eq]
    by_cases hpend : pending reads [] = []
    · simp [hpend]
    · simp [hpend]
  · intro hne
    have hle := hall.2
    simp only [readLoop_eq] at hne ⊢
    simp only [max_byte_one_chunked_body] at hle
    refine ⟨?_, by omega⟩
    exact Nat.one_le_iff_ne_zero.mpr (fun h => hne (List.length_eq_zero.mp h))

/-- C19, a worked input: three reads of two, one and no bytes; the buffer after the
append of the second read and the buffer the loop leaves. -/
theorem readLoop_buffer_bounded_witness :
    ((readLoop [[1, 2]] ⟨HandlerMethod.GET, "/a.txt", "", "/www", [], []⟩ []).2 ++
      [3]).length ≤ 133120 ∧
    (1 ≤ (readLoop [[1, 2], [3], []]
      ⟨HandlerMethod.GET, "/a.txt", "", "/www", [], []⟩ []).2.length ∧
    (readLoop [[1, 2], [3], []]
      ⟨HandlerMethod.GET, "/a.txt", "", "/www", [], []⟩ []).2.length ≤ 131072) :=
  ⟨(readLoop_buffer_bounded
      ⟨300, PathResolve.is_relative, PathResolve.is_relative, [], []⟩ (posix [])
      ⟨HandlerMethod.GET, "/a.txt", "", "/www", [], []⟩ "/www/a.txt" [[1, 2], [3], []]
      (by decide)).2.1 [[1, 2]] [3] [[]] rfl,
    (readLoop_buffer_bounded
      ⟨300, PathResolve.is_relative, PathResolve.is_relative, [], []⟩ (posix [])
      ⟨HandlerMethod.GET, "/a.txt", "", "/www", [], []⟩ "/www/a.txt" [[1, 2], [3], []]
      (by decide)).2.2.2.2 (by decide)⟩

/-! ## The response phase: paths with a filename -/

/-- The `try` block on a path with a filename other than `.`: the outcome is that of
`fs::exists` on the path, and the default names are not looked at. -/
theorem resolve_named (self : StaticFile) (ext : Externals) (p : String)
    (hnamed : ext.filename p ≠ "" ∧ ext.filename p ≠ ".") :
    resolve self ext p =
      match ext.fsExists p with
      | none => Resolution.fault
      | some true => Resolution.resolved p
      | some false => Resolution.notFound := by
  simp only [resolve, Externals.has_filename]
  cases hex : ext.fsExists p with
  | none => simp [hnamed.1, hnamed.2]
  | some b => cases b <;> simp [hnamed.1, hnamed.2]

/-- C20. Default names are consulted only for directory-like paths: for a claimed
request whose stored path has a filename that is neither empty nor `.`, the
context `onResponse` leaves is the same under every list of default names; if
the path exists it is the file that is opened, unchanged; and if it does not
exist the calls are `RenderNofound` and `Pass`, whatever exists underneath the
path.  (`hlaw`: the empty path has no filename.) -/
theorem onResponse_named_path_ignores_defaults (self : StaticFile) (ext : Externals)
    (ctx : Context) (p : String)
    (hlaw : ext.filename "" = "")
    (hdata : ctx.LoadData data_name = { found := some true, file := some p })
    (hnamed : ext.filename p ≠ "" ∧ ext.filename p ≠ ".") :
    (∀ names, onResponse { self with default_filenames := names } ext ctx =
      onResponse self ext ctx) ∧
    (ext.fsExists p = some true →
      resolve self ext p = Resolution.resolved p ∧
      responseCalls self ext ctx =
        match ext.ifstream p with
        | some reads => successCalls self ext p reads
        | none => [Effect.RenderInternalServerError, Effect.Pass]) ∧
    (ext.fsExists p = some false →
      responseCalls self ext ctx = [Effect.RenderNofound, Effect.Pass]) := by
  have hp : p ≠ "" := by
    intro h
    rw [h] at hnamed
    exact hnamed.1 hlaw
  have hrun := onResponse_claimed self ext ctx p hdata hp
  have hres := resolve_named self ext p hnamed
  refine ⟨?_, ?_, ?_⟩
  · intro names
    rw [hrun, onResponse_claimed _ ext ctx p hdata hp, hres, resolve_named _ ext p hnamed]
    cases hex : ext.fsExists p with
    | none => rfl
    | some b =>
      cases b with
      | false => rfl
      | true =>
        simp only []
        cases hopen : ext.ifstream p with
        | none => rfl
        | some reads => simp [sendFile_eq, successCalls]
  · intro hex
    rw [hex] at hres
    refine ⟨hres, ?_⟩
    cases hopen : ext.ifstream p with
    | none =>
      simp [responseCalls, hrun, hres, hopen, Context.RenderInternalServerError, Context.Pass,
        Context.emit]
    | some reads =>
      simp [responseCalls, hrun, hres, hopen, sendFile_eq]
  · intro hex
    rw [hex] at hres
    simp [responseCalls, hrun, hres, Context.RenderNofound, Context.Pass, Context.emit]

/-- C20, a worked input: `/www/a.txt` does not exist while `index.html` is a
configured default name and `/www/index.html` exists; the answer is Not-Found. -/
theorem onResponse_named_path_ignores_defaults_witness :
    responseCalls
      ⟨300, PathResolve.is_relative, PathResolve.is_relative, [], ["index.html"]⟩
      (posix [("/www/index.html", [1, 2])])
      ⟨HandlerMethod.GET, "/a.txt", "", "/www",
        [(data_name, { found := some true, file := some "/www/a.txt" })], []⟩ =
      [Effect.RenderNofound, Effect.Pass] :=
  (onResponse_named_path_ignores_defaults
    ⟨300, PathResolve.is_relative, PathResolve.is_relative, [], ["index.html"]⟩
    (posix [("/www/index.html", [1, 2])])
    ⟨HandlerMethod.GET, "/a.txt", "", "/www",
      [(data_name, { found := some true, file := some "/www/a.txt" })], []⟩
    "/www/a.txt" (by decide) (by decide) (by decide)).2.2 (by decide)

end da4qi4.Intercepter
